import Mathlib

set_option maxRecDepth 4000000

/- Verification development for the CSG electricity-bill reader (src/main.py).

   The program is embedded shallowly:
   * text is `List Char`;
   * the regular expressions of the source are embedded as an explicit
     backtracking matcher with Python search semantics (leftmost start
     position, greedy quantifiers, ordered alternation, named capture
     groups, DOTALL);
   * Python dictionaries are association lists preserving insertion order;
   * machine floats are modelled as rationals, and the textual rendering
     of a float is a fixed function standing in for the Python float repr;
   * Python exceptions are an explicit error type; the driver catches
     exactly the ValueError-shaped errors, as the source does.

   Python `\w` (Unicode) is approximated: ASCII alphanumerics, the
   underscore, and every character above U+007F count as word characters;
   this covers the CJK bill vocabulary, and the approximation is never
   load-bearing for the claims below. -/

/-! ## Character classes -/

def isWordChar (c : Char) : Bool :=
  c.isAlphanum || c == '_' || decide (128 ≤ c.toNat)

inductive CC
  | any
  | word
  | digit
  | sp
  | slashWord
  | digitDotDash
  | digitDot
deriving DecidableEq

def ccMatch : CC → Char → Bool
  | CC.any, _ => true
  | CC.word, c => isWordChar c
  | CC.digit, c => c.isDigit
  | CC.sp, c => c == ' '
  | CC.slashWord, c => isWordChar c || c == '/'
  | CC.digitDotDash, c => c.isDigit || c == '.' || c == '-'
  | CC.digitDot, c => c.isDigit || c == '.'

/-! ## Regular expressions

Only the constructs appearing in the source patterns are represented.
All starred subexpressions of the source are single-character classes,
so `star` is restricted to a class, which keeps matching structural. -/

inductive Re
  | eps
  | lit (c : Char)
  | cls (cc : CC)
  | star (cc : CC)
  | opt (r : Re)
  | cat (a b : Re)
  | alt (a b : Re)
  | grp (n : String) (r : Re)

/-- Captured groups: name to captured text, most recent first. -/
abbrev Caps := List (String × List Char)

def capInsert (n : String) (v : List Char) (k : Caps) : Caps := (n, v) :: k

def capLookup (n : String) : Caps → Option (List Char)
  | [] => Option.none
  | (m, v) :: k => if m = n then some v else capLookup n k

def firstSome {α β : Type} (f : α → Option β) : List α → Option β
  | [] => Option.none
  | a :: l =>
    match f a with
    | some b => some b
    | Option.none => firstSome f l

/-- Remainders after a greedy star over class `cc`: longest consumption first. -/
def mstar (cc : CC) : List Char → List (List Char)
  | [] => [[]]
  | c :: s => (if ccMatch cc c then mstar cc s else []) ++ [c :: s]

/-- The prefix of `s` that was consumed when `t` remains. -/
def consumedOf (s t : List Char) : List Char := s.take (s.length - t.length)

/-- Backtracking matcher in continuation style.  Alternatives are tried in
Python priority order and the first success wins. -/
def mre {α : Type} : Re → List Char → Caps → (List Char → Caps → Option α) → Option α
  | Re.eps, s, k, cont => cont s k
  | Re.lit c, s, k, cont =>
    match s with
    | [] => Option.none
    | d :: s' => if d = c then cont s' k else Option.none
  | Re.cls cc, s, k, cont =>
    match s with
    | [] => Option.none
    | d :: s' => if ccMatch cc d then cont s' k else Option.none
  | Re.star cc, s, k, cont => firstSome (fun t => cont t k) (mstar cc s)
  | Re.opt r, s, k, cont =>
    match mre r s k cont with
    | some v => some v
    | Option.none => cont s k
  | Re.cat a b, s, k, cont => mre a s k (fun t k' => mre b t k' cont)
  | Re.alt a b, s, k, cont =>
    match mre a s k cont with
    | some v => some v
    | Option.none => mre b s k cont
  | Re.grp n r, s, k, cont =>
    mre r s k (fun t k' => cont t (capInsert n (consumedOf s t) k'))

/-- Match anchored at the start of `s`; returns the remaining text and captures. -/
def matchAt (p : Re) (s : List Char) : Option (List Char × Caps) :=
  mre p s [] (fun t k => some (t, k))

/-- Python `pattern.search`: try each start position from the left; on success
return the text before the match, the matched text, the rest, and captures. -/
def searchGo (p : Re) : List Char → Option (List Char × List Char × List Char × Caps)
  | [] =>
    match matchAt p [] with
    | some (rest, k) => some ([], consumedOf [] rest, rest, k)
    | Option.none => Option.none
  | c :: s' =>
    match matchAt p (c :: s') with
    | some (rest, k) => some ([], consumedOf (c :: s') rest, rest, k)
    | Option.none =>
      match searchGo p s' with
      | some (b, m, r, k) => some (c :: b, m, r, k)
      | Option.none => Option.none

/-- Python `pattern.sub`, fuelled; each iteration continues after the match.
An empty match emits the replacement and advances one character. -/
def reSub (p : Re) (repl : Caps → List Char) : Nat → List Char → List Char
  | 0, s => s
  | fuel + 1, s =>
    match searchGo p s with
    | Option.none => s
    | some (b, m, r, k) =>
      if m.isEmpty then
        b ++ repl k ++ (match r with
          | [] => []
          | c :: r' => c :: reSub p repl fuel r')
      else b ++ repl k ++ reSub p repl fuel r

def pySub (p : Re) (repl : Caps → List Char) (s : List Char) : List Char :=
  reSub p repl (s.length + 1) s

/-! ## Pattern building blocks -/

def rstr (s : String) : Re := s.data.foldr (fun c r => Re.cat (Re.lit c) r) Re.eps

def rseq (l : List Re) : Re := l.foldr Re.cat Re.eps

def rplus (cc : CC) : Re := Re.cat (Re.cls cc) (Re.star cc)

def optSp : Re := Re.opt (Re.lit ' ')

def dotStar : Re := Re.star CC.any

def wplus : Re := rplus CC.word

/-- Group names of a pattern, in left-to-right order. -/
def Re.names : Re → List String
  | Re.grp n r => n :: r.names
  | Re.cat a b => a.names ++ b.names
  | Re.alt a b => a.names ++ b.names
  | Re.opt r => r.names
  | _ => []

/-! ## Python values, errors, dictionaries -/

inductive PyVal
  | none
  | str (s : String)
  | int (n : ℤ)
  | float (q : ℚ)
  | date (y m d : ℕ)
deriving DecidableEq

/-- The exceptions the source can raise.  The first five are ValueError
(the driver catches those); keyError and typeError are not. -/
inductive PyErr
  | noMatch (info : String)
  | unknownCategory
  | floatConvErr (s : String)
  | intConvErr (s : String)
  | dateErr (s : String)
  | keyError (k : String)
  | typeError (m : String)
deriving DecidableEq

def PyErr.isValueError : PyErr → Bool
  | PyErr.keyError _ => false
  | PyErr.typeError _ => false
  | _ => true

def PyErr.message : PyErr → String
  | PyErr.noMatch info => info ++ "无匹配！"
  | PyErr.unknownCategory => "电量信息示数类型无匹配！"
  | PyErr.floatConvErr s => "could not convert string to float: " ++ s
  | PyErr.intConvErr s => "invalid literal for int with base 10: " ++ s
  | PyErr.dateErr s => "Invalid isoformat string: " ++ s
  | PyErr.keyError k => k
  | PyErr.typeError m => m

/-- Python dict as an insertion-ordered association list. -/
abbrev PyDict := List (String × PyVal)

def dGet (d : PyDict) (k : String) : Option PyVal :=
  match d with
  | [] => Option.none
  | (k', v) :: d' => if k' = k then some v else dGet d' k

def dSet (d : PyDict) (k : String) (v : PyVal) : PyDict :=
  match d with
  | [] => [(k, v)]
  | (k', v') :: d' => if k' = k then (k, v) :: d' else (k', v') :: dSet d' k v

def dErase (d : PyDict) (k : String) : PyDict :=
  match d with
  | [] => []
  | (k', v') :: d' => if k' = k then d' else (k', v') :: dErase d' k

def dGetE (d : PyDict) (k : String) : Except PyErr PyVal :=
  match dGet d k with
  | some v => Except.ok v
  | Option.none => Except.error (PyErr.keyError k)

/-- Python dict union `a | b`: update left with right. -/
def dictUnion (a b : PyDict) : PyDict := b.foldl (fun d kv => dSet d kv.1 kv.2) a

/-- `match.groupdict()`: every named group of the pattern, `none` for a
group that did not participate in the match. -/
def groupdict (p : Re) (k : Caps) : PyDict :=
  p.names.map (fun n =>
    (n, match capLookup n k with
        | some v => PyVal.str (String.mk v)
        | Option.none => PyVal.none))

/-! ## Number and date parsing (Python float, int, datetime.date) -/

def digitVal (c : Char) : ℕ := c.toNat - 48

def natValOfDigits (l : List Char) : ℕ := l.foldl (fun a c => a * 10 + digitVal c) 0

def parseNatDigits (l : List Char) : Option ℕ :=
  if !l.isEmpty && l.all Char.isDigit then some (natValOfDigits l) else Option.none

def pyIntParse (s : String) : Option ℤ :=
  match s.data with
  | '-' :: rest => (parseNatDigits rest).map (fun n => -(n : ℤ))
  | '+' :: rest => (parseNatDigits rest).map (fun n => (n : ℤ))
  | l => (parseNatDigits l).map (fun n => (n : ℤ))

def parseFloatBody (l : List Char) : Option ℚ :=
  let ip := l.takeWhile Char.isDigit
  let rest := l.dropWhile Char.isDigit
  match rest with
  | [] => if ip.isEmpty then Option.none else some ((natValOfDigits ip : ℚ))
  | c :: frac =>
    if c = '.' && frac.all Char.isDigit && !(ip.isEmpty && frac.isEmpty)
    then some ((natValOfDigits ip : ℚ) + (natValOfDigits frac : ℚ) / (10 : ℚ) ^ frac.length)
    else Option.none

def pyFloatParse (s : String) : Option ℚ :=
  match s.data with
  | '-' :: rest => (parseFloatBody rest).map (fun q => -q)
  | '+' :: rest => parseFloatBody rest
  | l => parseFloatBody l

/-- Stand-in for the Python textual rendering of a float. -/
def pyFloatRepr (q : ℚ) : String :=
  if q.den = 1 then toString q.num ++ ".0" else toString q.num ++ "/" ++ toString q.den

def isLeapYear (y : ℕ) : Bool := (y % 4 == 0 && y % 100 != 0) || y % 400 == 0

def daysInMonth (y m : ℕ) : ℕ :=
  if m = 2 then (if isLeapYear y then 29 else 28)
  else if m = 4 || m = 6 || m = 9 || m = 11 then 30
  else 31

/-- `datetime.date(y, m, d)` with its range validation. -/
def mkDate (y m d : ℕ) : Except PyErr PyVal :=
  if 1 ≤ y && y ≤ 9999 && 1 ≤ m && m ≤ 12 && 1 ≤ d && d ≤ daysInMonth y m
  then Except.ok (PyVal.date y m d)
  else Except.error (PyErr.dateErr "day or month out of range")

/-- `datetime.date.fromisoformat`, restricted to the calendar-date forms the
bills use: `YYYY-MM-DD` always, and the compact `YYYYMMDD` only from
Python 3.11 on (`verLt311 = false`). -/
def fromisoformat (verLt311 : Bool) (s : String) : Except PyErr PyVal :=
  match s.data with
  | [a, b, c, d, h1, e, f, h2, g, h] =>
    if h1 = '-' && h2 = '-' && [a, b, c, d, e, f, g, h].all Char.isDigit
    then mkDate (natValOfDigits [a, b, c, d]) (natValOfDigits [e, f]) (natValOfDigits [g, h])
    else Except.error (PyErr.dateErr s)
  | [a, b, c, d, e, f, g, h] =>
    if !verLt311 && [a, b, c, d, e, f, g, h].all Char.isDigit
    then mkDate (natValOfDigits [a, b, c, d]) (natValOfDigits [e, f]) (natValOfDigits [g, h])
    else Except.error (PyErr.dateErr s)
  | _ => Except.error (PyErr.dateErr s)

/-- `date_from_iso_format` of the source: a date passes through; on an older
Python a string of length other than 10 is sliced as `YYYYMMDD`; otherwise
`fromisoformat` is used. -/
def date_from_iso_format (verLt311 : Bool) (v : PyVal) : Except PyErr PyVal :=
  match v with
  | PyVal.date y m d => Except.ok (PyVal.date y m d)
  | PyVal.str s =>
    if verLt311 && s.data.length ≠ 10 then
      match parseNatDigits (s.data.take 4), parseNatDigits ((s.data.drop 4).take 2),
            parseNatDigits ((s.data.drop 6).take 2) with
      | some y, some m, some d => mkDate y m d
      | _, _, _ => Except.error (PyErr.intConvErr s)
    else fromisoformat verLt311 s
  | _ => Except.error (PyErr.typeError "date_from_iso_format")

def quoteChar : Char := Char.ofNat 39

/-- `str_add_single_quotation_mark` of the source: non-strings and strings
already starting with the single-quote character pass through unchanged;
otherwise the quote is prepended. -/
def str_add_single_quotation_mark (v : PyVal) : PyVal :=
  match v with
  | PyVal.str s =>
    if s.data.head? = some quoteChar then PyVal.str s
    else PyVal.str (String.mk (quoteChar :: s.data))
  | _ => v

/-! ## Type-conversion dispatch (`convert_type` and the conversion tables) -/

/-- The conversion functions stored in the source tables, defunctionalised. -/
inductive Conv
  | toFloat
  | toInt
  | stripNewlines
  | addQuote
  | toDate
deriving DecidableEq

def ratTrunc (q : ℚ) : ℤ := if 0 ≤ q then ⌊q⌋ else ⌈q⌉

def pyFloatConv (v : PyVal) : Except PyErr PyVal :=
  match v with
  | PyVal.float q => Except.ok (PyVal.float q)
  | PyVal.int n => Except.ok (PyVal.float (n : ℚ))
  | PyVal.str s =>
    match pyFloatParse s with
    | some q => Except.ok (PyVal.float q)
    | Option.none => Except.error (PyErr.floatConvErr s)
  | _ => Except.error (PyErr.typeError "float")

def pyIntConv (v : PyVal) : Except PyErr PyVal :=
  match v with
  | PyVal.int n => Except.ok (PyVal.int n)
  | PyVal.float q => Except.ok (PyVal.int (ratTrunc q))
  | PyVal.str s =>
    match pyIntParse s with
    | some n => Except.ok (PyVal.int n)
    | Option.none => Except.error (PyErr.intConvErr s)
  | _ => Except.error (PyErr.typeError "int")

def applyConv (verLt311 : Bool) : Conv → PyVal → Except PyErr PyVal
  | Conv.toFloat, v => pyFloatConv v
  | Conv.toInt, v => pyIntConv v
  | Conv.stripNewlines, v =>
    match v with
    | PyVal.str s => Except.ok (PyVal.str (String.mk (s.data.filter (fun c => c ≠ '\n'))))
    | _ => Except.error (PyErr.typeError "replace")
  | Conv.addQuote, v => Except.ok (str_add_single_quotation_mark v)
  | Conv.toDate, v => date_from_iso_format verLt311 v

/-- `convert_type` of the source: iterate over the table entries in order;
skip absent keys, pop keys holding `None`, replace other values by the
converted one, and propagate the first conversion exception. -/
def convert_type (ver : Bool) (m : PyDict) : List (String × Conv) → Except PyErr PyDict
  | [] => Except.ok m
  | kc :: tbl =>
    match dGet m kc.1 with
    | Option.none => convert_type ver m tbl
    | some v =>
      if v = PyVal.none then convert_type ver (dErase m kc.1) tbl
      else
        match applyConv ver kc.2 v with
        | Except.ok v' => convert_type ver (dSet m kc.1 v') tbl
        | Except.error e => Except.error e

/-! ## The patterns of the source -/

def CHECK_PATTERN : Re :=
  rseq [rstr "中国南方电网公司", optSp, wplus, rstr "电网公司", optSp, rstr "电费通知单"]

def check_is_bill (text : List Char) : Bool := (searchGo CHECK_PATTERN text).isSome

/-- First whitespace rule: a run of two or more spaces. -/
def WS_PATTERN_1 : Re := rseq [Re.lit ' ', Re.lit ' ', Re.star CC.sp]

def ws_repl_1 : Caps → List Char := fun _ => [' ']

/-- Second whitespace rule: a table-header fragment wrapped onto the next
line.  Groups are numbered as in the source. -/
def WS_PATTERN_2 : Re :=
  rseq [optSp,
        Re.opt (Re.grp "1" (rseq [Re.lit '(', rplus CC.digit, Re.lit ')'])),
        Re.grp "2" (rplus CC.slashWord),
        Re.opt (Re.grp "3" (rseq [Re.lit '(', rplus CC.slashWord, Re.lit ')'])),
        Re.lit '\n', optSp,
        Re.grp "4" (Re.alt (rseq [Re.lit '(', rplus CC.slashWord, Re.lit ')'])
                           (rstr "电量"))]

def capGetD (k : Caps) (n : String) : List Char := (capLookup n k).getD []

def ws_repl_2 : Caps → List Char := fun k =>
  ' ' :: (capGetD k "1" ++ capGetD k "2" ++ capGetD k "3" ++ capGetD k "4")

def substitute_white_space (s : List Char) : List Char :=
  pySub WS_PATTERN_2 ws_repl_2 (pySub WS_PATTERN_1 ws_repl_1 s)

def INFORMATION_PATTERN : Re := rseq
  [rstr "尊敬的：", optSp, Re.grp "用户" wplus, dotStar,
   rstr "用户编号：", optSp, Re.grp "用户编号" wplus, dotStar,
   rstr "结算户号：", optSp, Re.grp "结算户号" wplus, dotStar,
   rstr "结算户名：", optSp, Re.grp "结算户名" wplus, dotStar,
   rstr "计量点编号：", optSp, Re.grp "计量点编号" wplus, dotStar,
   rstr "市场化属性分类：", optSp, Re.grp "市场化属性分类" wplus, dotStar,
   rstr "用电类别：", optSp, Re.grp "用电类别" wplus, dotStar,
   rstr "用电开始时间：", optSp, Re.grp "用电开始时间" wplus, dotStar,
   rstr "用电结束时间：", optSp, Re.grp "用电结束时间" wplus]

def INFORMATION_CONVERSIONS : List (String × Conv) :=
  [("用户编号", Conv.addQuote), ("结算户号", Conv.addQuote), ("计量点编号", Conv.addQuote),
   ("用电开始时间", Conv.toDate), ("用电结束时间", Conv.toDate)]

def search_to_dict (p : Re) (s : List Char) (info : String) : Except PyErr PyDict :=
  match searchGo p s with
  | Option.none => Except.error (PyErr.noMatch info)
  | some (_, _, _, k) => Except.ok (groupdict p k)

def extract_information (ver : Bool) (text : List Char) : Except PyErr PyDict := do
  let information ← search_to_dict INFORMATION_PATTERN text "基本信息"
  convert_type ver information INFORMATION_CONVERSIONS

/-! ### Consumption patterns -/

def CONSUMPTION_NONTOU_BANDS : List String := ["有功总", "无功总"]

def CONSUMPTION_TOU_BANDS : List String := ["尖", "峰", "平", "谷", "无功总"]

/-- The check pattern: the section labels joined by DOTALL wildcards. -/
def chkJoin : List String → Re
  | [] => Re.eps
  | [l] => rstr l
  | l :: ls => Re.cat (rstr l) (Re.cat dotStar (chkJoin ls))

def CONSUMPTION_NONTOU_CHECK_PATTERN : Re := chkJoin CONSUMPTION_NONTOU_BANDS

def CONSUMPTION_TOU_CHECK_PATTERN : Re := chkJoin CONSUMPTION_TOU_BANDS

def numItem : Re := rplus CC.digitDotDash

def kwhTag : Re := rstr "(千瓦时)"

def assetRe : Re := Re.alt (rseq [wplus, Re.lit '\n', wplus]) wplus

def numGroup (band field : String) : Re := Re.grp (band ++ field) numItem

/-- The table-header part of the two consumption patterns; the
时-differentiated header optionally carries the 尖峰调整电量 column. -/
def consumptionHeader (timeDiff : Bool) : Re := rseq
  ([rstr "表计资产编号", optSp, rstr "示数类型", optSp, rstr "上次表示数", optSp,
    rstr "本次表示数", optSp, rstr "倍率", optSp, rstr "抄见电量", kwhTag, optSp,
    rstr "换表电量", kwhTag, optSp, rstr "退补电量", kwhTag, optSp,
    rstr "变/线损电量", Re.opt kwhTag, optSp, rstr "公摊电量", kwhTag, optSp,
    rstr "免费电量", kwhTag, optSp, rstr "分表电量", kwhTag] ++
   (if timeDiff then [Re.opt (rseq [optSp, rstr "尖峰调整电量", Re.opt kwhTag])] else []) ++
   [optSp, rstr "合计电量", kwhTag, Re.lit '\n'])

/-- One data row of a consumption table.  `hasFree` holds for every band but
反-active total; `hasPeakAdj` only for the sharp and peak bands. -/
def consumptionRow (band : String) (hasFree hasPeakAdj : Bool) : Re := rseq
  ([Re.grp (band ++ "表计资产编号") assetRe, optSp, rstr band, Re.lit ' ',
    numGroup band "上次表示数", Re.lit ' ', numGroup band "本次表示数", Re.lit ' ',
    numGroup band "倍率", Re.lit ' ', numGroup band "抄见电量", Re.lit ' ',
    numGroup band "换表电量", Re.lit ' ', numGroup band "退补电量", Re.lit ' ',
    numGroup band "变线损电量", Re.lit ' ', numGroup band "公摊电量", Re.lit ' '] ++
   (if hasFree then [numGroup band "免费电量", Re.lit ' '] else []) ++
   [numGroup band "分表电量"] ++
   (if hasPeakAdj then [Re.opt (Re.cat (Re.lit ' ') (numGroup band "尖峰调整电量"))] else []) ++
   [Re.lit ' ', numGroup band "合计电量", Re.lit '\n'])

def CONSUMPTION_NONTOU_PATTERN : Re := rseq
  [consumptionHeader false,
   consumptionRow "有功总" true false,
   consumptionRow "无功总" false false]

def CONSUMPTION_TOU_PATTERN : Re := rseq
  [consumptionHeader true,
   consumptionRow "尖" true true,
   consumptionRow "峰" true true,
   consumptionRow "平" true false,
   consumptionRow "谷" true false,
   consumptionRow "无功总" false false]

def CONSUMPTION_CONVERSIONS : List (String × Conv) :=
  [("表计资产编号", Conv.stripNewlines),
   ("上次表示数", Conv.toFloat), ("本次表示数", Conv.toFloat), ("倍率", Conv.toInt),
   ("抄见电量", Conv.toFloat), ("换表电量", Conv.toFloat), ("退补电量", Conv.toFloat),
   ("变线损电量", Conv.toFloat), ("公摊电量", Conv.toFloat), ("免费电量", Conv.toFloat),
   ("分表电量", Conv.toFloat), ("尖峰调整电量", Conv.toFloat), ("合计电量", Conv.toFloat)]

def bandTable (bands : List String) : List (String × Conv) :=
  CONSUMPTION_CONVERSIONS.flatMap (fun kc => bands.map (fun b => (b ++ kc.1, kc.2)))

def CONSUMPTION_NONTOU_CONVERSIONS : List (String × Conv) :=
  bandTable CONSUMPTION_NONTOU_BANDS

def CONSUMPTION_TOU_CONVERSIONS : List (String × Conv) :=
  bandTable CONSUMPTION_TOU_BANDS

/-- `float(x)` as applied inside the synthesised sum. -/
def pyFloatOf (v : PyVal) : Except PyErr ℚ :=
  match v with
  | PyVal.float q => Except.ok q
  | PyVal.int n => Except.ok (n : ℚ)
  | PyVal.str s =>
    match pyFloatParse s with
    | some q => Except.ok q
    | Option.none => Except.error (PyErr.floatConvErr s)
  | _ => Except.error (PyErr.typeError "float")

/-- `sum(float(consumption[band + 合计电量]) for band in bands)`. -/
def sumConsumption (d : PyDict) : List String → Except PyErr ℚ
  | [] => Except.ok 0
  | b :: bs => do
    let v ← dGetE d (b ++ "合计电量")
    let q ← pyFloatOf v
    let rest ← sumConsumption d bs
    Except.ok (q + rest)

def extract_consumption_nontou (ver : Bool) (text : List Char) : Except PyErr PyDict := do
  let consumption ← search_to_dict CONSUMPTION_NONTOU_PATTERN text "非分时电量信息"
  let consumption ← convert_type ver consumption CONSUMPTION_NONTOU_CONVERSIONS
  let v ← dGetE consumption "有功总表计资产编号"
  Except.ok (dSet consumption "表计资产编号" v)

def extract_consumption_tou (ver : Bool) (text : List Char) : Except PyErr PyDict := do
  let consumption ← search_to_dict CONSUMPTION_TOU_PATTERN text "分时电量信息"
  let consumption ← convert_type ver consumption CONSUMPTION_TOU_CONVERSIONS
  let v ← dGetE consumption "平表计资产编号"
  let consumption := dSet consumption "表计资产编号" v
  let qsum ← sumConsumption consumption CONSUMPTION_TOU_BANDS.dropLast
  Except.ok (dSet consumption "有功总合计电量" (PyVal.str (pyFloatRepr qsum)))

/-- `extract_consumption`: dispatch on the two layout checks, in order. -/
def extract_consumption (ver : Bool) (text : List Char) : Except PyErr PyDict :=
  if (searchGo CONSUMPTION_NONTOU_CHECK_PATTERN text).isSome then
    extract_consumption_nontou ver text
  else if (searchGo CONSUMPTION_TOU_CHECK_PATTERN text).isSome then
    extract_consumption_tou ver text
  else Except.error PyErr.unknownCategory

/-! ### Bill totals -/

def BILL_PATTERN : Re := rseq
  [rstr "应收电费合计（大写）：", optSp, Re.grp "应收电费合计大写" wplus, optSp,
   Re.opt (Re.lit '元'), dotStar,
   rstr "应收电费合计（小写）：", optSp, Re.grp "应收电费合计" (rplus CC.digitDot), optSp,
   Re.lit '元', dotStar,
   rstr "平均电价：", optSp, Re.grp "平均电价" (rplus CC.digitDot), optSp,
   rstr "(元/千瓦时)"]

def BILL_CONVERSIONS : List (String × Conv) :=
  [("应收电费合计", Conv.toFloat), ("平均电价", Conv.toFloat)]

def extract_bill (ver : Bool) (text : List Char) : Except PyErr PyDict := do
  let bill ← search_to_dict BILL_PATTERN text "电费信息"
  convert_type ver bill BILL_CONVERSIONS

/-! ### Page extraction and the driver loop -/

def extract (ver : Bool) (text : List Char) : Except PyErr PyDict := do
  let text := substitute_white_space text
  let information ← extract_information ver text
  let consumption ← extract_consumption ver text
  let bill ← extract_bill ver text
  Except.ok (dictUnion (dictUnion information consumption) bill)

/-- One page of the driver loop: skip non-bills silently; append the record
on success; on a ValueError log the file name with the message and keep
going; let any other exception propagate. -/
def processPage (ver : Bool) (fileName : String) (text : List Char)
    (st : List PyDict × List String) : Except PyErr (List PyDict × List String) :=
  if !check_is_bill text then Except.ok st
  else
    match extract ver text with
    | Except.ok r => Except.ok (st.1 ++ [r], st.2)
    | Except.error e =>
      if e.isValueError then Except.ok (st.1, st.2 ++ [fileName ++ " " ++ e.message])
      else Except.error e

def processPages (ver : Bool) (fileName : String) (pages : List (List Char))
    (st : List PyDict × List String) : Except PyErr (List PyDict × List String) :=
  match pages with
  | [] => Except.ok st
  | t :: rest => do
    let st' ← processPage ver fileName t st
    processPages ver fileName rest st'

def processFiles (ver : Bool) (files : List (String × List (List Char)))
    (st : List PyDict × List String) : Except PyErr (List PyDict × List String) :=
  match files with
  | [] => Except.ok st
  | (fn, pages) :: rest => do
    let st' ← processPages ver fn pages st
    processFiles ver rest st'

/-! ## Numeric-column vocabulary and sample inputs used by concrete witnesses -/

/-- The numeric columns other than the multiplier. -/
def NUMERIC_FIELDS : List String :=
  ["上次表示数", "本次表示数", "抄见电量", "换表电量", "退补电量", "变线损电量",
   "公摊电量", "免费电量", "分表电量", "尖峰调整电量", "合计电量"]

/-- Group `n` participates in every successful match of the pattern. -/
def mustGrp : Re → String → Bool
  | Re.grp n' r, n => n' == n || mustGrp r n
  | Re.cat a b, n => mustGrp a n || mustGrp b n
  | Re.alt a b, n => mustGrp a n && mustGrp b n
  | _, _ => false

def sampleInfoText : List Char :=
  ("尊敬的：张三 用户编号：1234567890 结算户号：111 结算户名：张三 计量点编号：9876543210 " ++
   "市场化属性分类：甲 用电类别：乙 用电开始时间：20240101 用电结束时间：20240131").data

def sampleNontouText : List Char :=
  ("表计资产编号 示数类型 上次表示数 本次表示数 倍率 抄见电量(千瓦时) 换表电量(千瓦时) " ++
   "退补电量(千瓦时) 变/线损电量 公摊电量(千瓦时) 免费电量(千瓦时) 分表电量(千瓦时) 合计电量(千瓦时)\n" ++
   "M1 有功总 100.0 200.5 1 100.5 0.0 0.0 0.0 0.0 0.0 0.0 100.5\n" ++
   "M1 无功总 10.0 20.0 1 10.0 0.0 0.0 0.0 0.0 0.0 10.0\n").data

def sampleTouText : List Char :=
  ("表计资产编号 示数类型 上次表示数 本次表示数 倍率 抄见电量(千瓦时) 换表电量(千瓦时) " ++
   "退补电量(千瓦时) 变/线损电量 公摊电量(千瓦时) 免费电量(千瓦时) 分表电量(千瓦时) 合计电量(千瓦时)\n" ++
   "M2 尖 1.0 2.0 1 10.0 0.0 0.0 0.0 0.0 0.0 0.0 10.0\n" ++
   "M2 峰 1.0 2.0 1 20.0 0.0 0.0 0.0 0.0 0.0 0.0 20.0\n" ++
   "M2 平 1.0 2.0 1 30.0 0.0 0.0 0.0 0.0 0.0 0.0 30.0\n" ++
   "M2 谷 1.0 2.0 1 5.0 0.0 0.0 0.0 0.0 0.0 0.0 5.0\n" ++
   "M2 无功总 1.0 2.0 1 6.0 0.0 0.0 0.0 0.0 0.0 6.0\n").data

def sampleBothChecksText : List Char := ("有功总 尖 峰 平 谷 无功总").data

def sampleBillPageText : List Char := ("中国南方电网公司 广东电网公司 电费通知单").data

def sampleNontouRecord : PyDict :=
  match extract_consumption true sampleNontouText with
  | Except.ok r => r
  | Except.error _ => []

def sampleTouRecord : PyDict :=
  match extract_consumption true sampleTouText with
  | Except.ok r => r
  | Except.error _ => []

def sampleConvDict : PyDict :=
  [("尖倍率", PyVal.str "5"), ("尖合计电量", PyVal.str "10.5"),
   ("尖表计资产编号", PyVal.str (String.mk ['M', '\n', '1']))]

def sampleConvDictOut : PyDict :=
  match convert_type true sampleConvDict CONSUMPTION_TOU_CONVERSIONS with
  | Except.ok d => d
  | Except.error _ => []

def sampleTouSearch : List Char × List Char × List Char × Caps :=
  (searchGo CONSUMPTION_TOU_PATTERN sampleTouText).getD ([], [], [], [])

/-- The labels of the basic-information sequence, in pattern order. -/
def INFO_LABELS : List String :=
  ["尊敬的：", "用户编号：", "结算户号：", "结算户名：", "计量点编号：",
   "市场化属性分类：", "用电类别：", "用电开始时间：", "用电结束时间："]

def sampleInfoRecord : PyDict :=
  match extract_information true sampleInfoText with
  | Except.ok r => r
  | Except.error _ => []

/-- No two adjacent space characters. -/
def noDbl (l : List Char) : Prop :=
  List.Chain' (fun a b => ¬(a = ' ' ∧ b = ' ')) l

/-- Characters erased or moved by the whitespace rules. -/
def isBlankChar (c : Char) : Bool := c == ' ' || c == '\n'

/-! ## Engine metatheory

`Mat r p k k'` is the big-step matching relation: pattern `r` can consume
exactly `p`, turning captures `k` into `k'`.  The backtracking matcher is
proved sound and complete for it, and `searchGo` is proved to return the
leftmost match. -/

inductive Mat : Re → List Char → Caps → Caps → Prop
  | eps {k} : Mat Re.eps [] k k
  | lit {c k} : Mat (Re.lit c) [c] k k
  | cls {cc c k} : ccMatch cc c = true → Mat (Re.cls cc) [c] k k
  | star_nil {cc k} : Mat (Re.star cc) [] k k
  | star_cons {cc c s k} : ccMatch cc c = true → Mat (Re.star cc) s k k →
      Mat (Re.star cc) (c :: s) k k
  | opt_some {r s k k'} : Mat r s k k' → Mat (Re.opt r) s k k'
  | opt_none {r k} : Mat (Re.opt r) [] k k
  | cat {a b s₁ s₂ k k₁ k₂} : Mat a s₁ k k₁ → Mat b s₂ k₁ k₂ →
      Mat (Re.cat a b) (s₁ ++ s₂) k k₂
  | alt_l {a b s k k'} : Mat a s k k' → Mat (Re.alt a b) s k k'
  | alt_r {a b s k k'} : Mat b s k k' → Mat (Re.alt a b) s k k'
  | grp {n r s k k'} : Mat r s k k' → Mat (Re.grp n r) s k (capInsert n s k')

lemma consumedOf_append (p t : List Char) : consumedOf (p ++ t) t = p := by
  simp [consumedOf]

lemma firstSome_eq_some {α β : Type} {f : α → Option β} {l : List α} {v : β}
    (h : firstSome f l = some v) : ∃ a ∈ l, f a = some v := by
  induction l with
  | nil => simp [firstSome] at h
  | cons a l ih =>
    rw [firstSome] at h
    cases ha : f a with
    | some b => rw [ha] at h; exact ⟨a, List.mem_cons_self a l, ha.trans h⟩
    | none =>
      rw [ha] at h
      obtain ⟨a', ha', hfa⟩ := ih h
      exact ⟨a', List.mem_cons_of_mem _ ha', hfa⟩

lemma firstSome_ne_none {α β : Type} {f : α → Option β} {l : List α} {a : α}
    (ha : a ∈ l) (h : f a ≠ Option.none) : firstSome f l ≠ Option.none := by
  induction l with
  | nil => simp at ha
  | cons b l ih =>
    rw [firstSome]
    cases hb : f b with
    | some v => simp
    | none =>
      rcases List.mem_cons.mp ha with rfl | ha'
      · exact absurd hb h
      · exact ih ha'

lemma mstar_mem_decomp {cc : CC} : ∀ {s t : List Char}, t ∈ mstar cc s →
    ∃ p, s = p ++ t ∧ ∀ c ∈ p, ccMatch cc c = true := by
  intro s
  induction s with
  | nil => intro t ht; simp [mstar] at ht; exact ⟨[], by simp [ht]⟩
  | cons c s ih =>
    intro t ht
    rw [mstar] at ht
    rcases List.mem_append.mp ht with h | h
    · by_cases hc : ccMatch cc c = true
      · rw [if_pos hc] at h
        obtain ⟨p, hp, hall⟩ := ih h
        refine ⟨c :: p, by simp [hp], ?_⟩
        intro d hd
        rcases List.mem_cons.mp hd with rfl | hd'
        · exact hc
        · exact hall d hd'
      · simp [hc] at h
    · simp at h
      exact ⟨[], by simp [h]⟩

lemma mem_mstar_append {cc : CC} : ∀ {p : List Char} (t : List Char),
    (∀ c ∈ p, ccMatch cc c = true) → t ∈ mstar cc (p ++ t) := by
  intro p
  induction p with
  | nil =>
    intro t _
    cases t with
    | nil => simp [mstar]
    | cons c r => rw [List.nil_append, mstar]; exact List.mem_append_right _ (by simp)
  | cons c p ih =>
    intro t hall
    have hc : ccMatch cc c = true := hall c (List.mem_cons_self _ _)
    rw [List.cons_append, mstar, if_pos hc]
    exact List.mem_append_left _ (ih t (fun d hd => hall d (List.mem_cons_of_mem _ hd)))

lemma Mat_star_of_forall {cc : CC} {k : Caps} : ∀ {p : List Char},
    (∀ c ∈ p, ccMatch cc c = true) → Mat (Re.star cc) p k k := by
  intro p
  induction p with
  | nil => intro _; exact Mat.star_nil
  | cons c p ih =>
    intro hall
    exact Mat.star_cons (hall c (List.mem_cons_self _ _))
      (ih (fun d hd => hall d (List.mem_cons_of_mem _ hd)))

lemma Mat_star_forall {cc : CC} {p : List Char} {k k' : Caps}
    (h : Mat (Re.star cc) p k k') : k' = k ∧ ∀ c ∈ p, ccMatch cc c = true := by
  generalize hr : Re.star cc = r at h
  induction h with
  | star_nil => exact ⟨rfl, by simp⟩
  | star_cons hc _ ih =>
    cases hr
    obtain ⟨hk, hall⟩ := ih rfl
    refine ⟨rfl, ?_⟩
    intro d hd
    rcases List.mem_cons.mp hd with rfl | hd'
    · exact hc
    · exact hall d hd'
  | eps => cases hr
  | lit => cases hr
  | cls _ => cases hr
  | opt_some _ _ => cases hr
  | opt_none => cases hr
  | cat _ _ _ _ => cases hr
  | alt_l _ _ => cases hr
  | alt_r _ _ => cases hr
  | grp _ _ => cases hr

lemma mre_sound {α : Type} : ∀ (r : Re) (s : List Char) (k : Caps)
    (cont : List Char → Caps → Option α) (v : α), mre r s k cont = some v →
    ∃ p t k', s = p ++ t ∧ Mat r p k k' ∧ cont t k' = some v := by
  intro r
  induction r with
  | eps => exact fun s k cont v h => ⟨[], s, k, rfl, Mat.eps, h⟩
  | lit c =>
    intro s k cont v h
    cases s with
    | nil => rw [mre] at h; cases h
    | cons d s' =>
      rw [mre] at h
      by_cases hd : d = c
      · rw [if_pos hd] at h
        subst hd
        exact ⟨[d], s', k, rfl, Mat.lit, h⟩
      · rw [if_neg hd] at h; cases h
  | cls cc =>
    intro s k cont v h
    cases s with
    | nil => rw [mre] at h; cases h
    | cons d s' =>
      rw [mre] at h
      by_cases hd : ccMatch cc d = true
      · rw [if_pos hd] at h
        exact ⟨[d], s', k, rfl, Mat.cls hd, h⟩
      · rw [if_neg hd] at h; cases h
  | star cc =>
    intro s k cont v h
    rw [mre] at h
    obtain ⟨t, ht, hct⟩ := firstSome_eq_some h
    obtain ⟨p, hp, hall⟩ := mstar_mem_decomp ht
    exact ⟨p, t, k, hp, Mat_star_of_forall hall, hct⟩
  | opt r ih =>
    intro s k cont v h
    rw [mre] at h
    cases hm : mre r s k cont with
    | some w =>
      rw [hm] at h
      obtain ⟨p, t, k', hp, hmat, hct⟩ := ih s k cont w hm
      exact ⟨p, t, k', hp, Mat.opt_some hmat, hct.trans h⟩
    | none =>
      rw [hm] at h
      exact ⟨[], s, k, rfl, Mat.opt_none, h⟩
  | cat a b iha ihb =>
    intro s k cont v h
    rw [mre] at h
    obtain ⟨p₁, t₁, k₁, hp₁, hmat₁, h₁⟩ := iha s k _ v h
    obtain ⟨p₂, t₂, k₂, hp₂, hmat₂, h₂⟩ := ihb t₁ k₁ cont v h₁
    refine ⟨p₁ ++ p₂, t₂, k₂, ?_, Mat.cat hmat₁ hmat₂, h₂⟩
    rw [hp₁, hp₂, List.append_assoc]
  | alt a b iha ihb =>
    intro s k cont v h
    rw [mre] at h
    cases hm : mre a s k cont with
    | some w =>
      rw [hm] at h
      obtain ⟨p, t, k', hp, hmat, hct⟩ := iha s k cont w hm
      exact ⟨p, t, k', hp, Mat.alt_l hmat, hct.trans h⟩
    | none =>
      rw [hm] at h
      obtain ⟨p, t, k', hp, hmat, hct⟩ := ihb s k cont v h
      exact ⟨p, t, k', hp, Mat.alt_r hmat, hct⟩
  | grp n r ih =>
    intro s k cont v h
    rw [mre] at h
    obtain ⟨p, t, k', hp, hmat, hct⟩ := ih s k _ v h
    refine ⟨p, t, capInsert n p k', hp, Mat.grp hmat, ?_⟩
    rw [hp, consumedOf_append] at hct
    exact hct

lemma mre_complete {α : Type} {r : Re} {p : List Char} {k k' : Caps}
    (h : Mat r p k k') : ∀ (t : List Char) (cont : List Char → Caps → Option α),
    cont t k' ≠ Option.none → mre r (p ++ t) k cont ≠ Option.none := by
  induction h with
  | eps => intro t cont hc; exact hc
  | @lit c k =>
    intro t cont hc
    have he : mre (Re.lit c) ([c] ++ t) k cont = cont t k := by
      rw [List.singleton_append, mre, if_pos rfl]
    rw [he]; exact hc
  | @cls cc c k hcc =>
    intro t cont hc
    have he : mre (Re.cls cc) ([c] ++ t) k cont = cont t k := by
      rw [List.singleton_append, mre, if_pos hcc]
    rw [he]; exact hc
  | @star_nil cc k =>
    intro t cont hc
    rw [List.nil_append, mre]
    exact firstSome_ne_none (mem_mstar_append t (fun d hd => absurd hd (List.not_mem_nil d))) hc
  | @star_cons cc c s k hc hmat =>
    intro t cont hcont
    rw [mre]
    have hall : ∀ d ∈ c :: s, ccMatch cc d = true := by
      intro d hd
      rcases List.mem_cons.mp hd with rfl | hd'
      · exact hc
      · exact (Mat_star_forall hmat).2 d hd'
    exact firstSome_ne_none (mem_mstar_append t hall) hcont
  | @opt_some r s k k' hmat ih =>
    intro t cont hc
    rw [mre]
    cases hm : mre r (s ++ t) k cont with
    | some w => simp
    | none => exact absurd hm (ih t cont hc)
  | @opt_none r k =>
    intro t cont hc
    rw [List.nil_append, mre]
    cases hm : mre r t k cont with
    | some w => simp
    | none => exact hc
  | @cat a b s₁ s₂ k k₁ k₂ h₁ h₂ ih₁ ih₂ =>
    intro t cont hc
    rw [List.append_assoc, mre]
    exact ih₁ (s₂ ++ t) _ (ih₂ t cont hc)
  | @alt_l a b s k k' hmat ih =>
    intro t cont hc
    rw [mre]
    cases hm : mre a (s ++ t) k cont with
    | some w => simp
    | none => exact absurd hm (ih t cont hc)
  | @alt_r a b s k k' hmat ih =>
    intro t cont hc
    rw [mre]
    cases hm : mre a (s ++ t) k cont with
    | some w => simp
    | none => exact ih t cont hc
  | @grp n r s k k' hmat ih =>
    intro t cont hc
    rw [mre]
    refine ih t _ ?_
    rw [consumedOf_append]
    exact hc

lemma matchAt_sound {p : Re} {s rest : List Char} {k : Caps}
    (h : matchAt p s = some (rest, k)) :
    ∃ q, s = q ++ rest ∧ Mat p q [] k ∧ consumedOf s rest = q := by
  obtain ⟨q, t, k', hq, hmat, hct⟩ := mre_sound p s [] _ _ h
  have hct' : some (t, k') = some (rest, k) := hct
  simp only [Option.some.injEq, Prod.mk.injEq] at hct'
  obtain ⟨rfl, rfl⟩ := hct'
  exact ⟨q, hq, hmat, by rw [hq, consumedOf_append]⟩

lemma matchAt_complete {p : Re} {q : List Char} {k' : Caps}
    (h : Mat p q [] k') (t : List Char) : matchAt p (q ++ t) ≠ Option.none := by
  exact mre_complete h t _ (by simp)

lemma searchGo_eq_some {p : Re} : ∀ {s b m r : List Char} {k : Caps},
    searchGo p s = some (b, m, r, k) →
    s = b ++ m ++ r ∧ matchAt p (m ++ r) = some (r, k) ∧
      ∀ b₁ b₂, b = b₁ ++ b₂ → b₂ ≠ [] → matchAt p (b₂ ++ m ++ r) = Option.none := by
  intro s
  induction s with
  | nil =>
    intro b m r k h
    rw [searchGo] at h
    cases hm : matchAt p [] with
    | some x =>
      obtain ⟨rest, k₀⟩ := x
      rw [hm] at h
      simp only [Option.some.injEq, Prod.mk.injEq] at h
      obtain ⟨rfl, rfl, rfl, rfl⟩ := h
      obtain ⟨q, hq, hmat, hco⟩ := matchAt_sound hm
      obtain ⟨rfl, rfl⟩ := List.append_eq_nil.mp hq.symm
      refine ⟨by simp [consumedOf], by simpa [consumedOf] using hm, ?_⟩
      intro b₁ b₂ hb hne
      exact absurd (List.append_eq_nil.mp hb.symm).2 hne
    | none => rw [hm] at h; cases h
  | cons c s' ih =>
    intro b m r k h
    rw [searchGo] at h
    cases hm : matchAt p (c :: s') with
    | some x =>
      obtain ⟨rest, k₀⟩ := x
      rw [hm] at h
      simp only [Option.some.injEq, Prod.mk.injEq] at h
      obtain ⟨rfl, rfl, rfl, rfl⟩ := h
      obtain ⟨q, hq, hmat, hco⟩ := matchAt_sound hm
      refine ⟨?_, ?_, ?_⟩
      · rw [List.nil_append, hco]; exact hq
      · rw [hco, ← hq]; exact hm
      · intro b₁ b₂ hb hne
        exact absurd (List.append_eq_nil.mp hb.symm).2 hne
    | none =>
      rw [hm] at h
      cases hs : searchGo p s' with
      | some x =>
        obtain ⟨b', m', r', k'⟩ := x
        rw [hs] at h
        simp only [Option.some.injEq, Prod.mk.injEq] at h
        obtain ⟨rfl, rfl, rfl, rfl⟩ := h
        obtain ⟨hd, hmm, hnone⟩ := ih hs
        refine ⟨by simp [hd], hmm, ?_⟩
        intro b₁ b₂ hb hne
        cases b₁ with
        | nil =>
          rw [List.nil_append] at hb
          subst hb
          have he : (c :: b') ++ m' ++ r' = c :: s' := by rw [hd]; simp
          rw [he]; exact hm
        | cons c₁ b₁' =>
          injection hb with hb1 hb2
          exact hnone b₁' b₂ hb2 hne
      | none => rw [hs] at h; cases h

lemma searchGo_isSome_of_matchAt {p : Re} : ∀ (pre s : List Char),
    matchAt p s ≠ Option.none → (searchGo p (pre ++ s)).isSome = true := by
  intro pre
  induction pre with
  | nil =>
    intro s hm
    cases s with
    | nil =>
      rw [List.nil_append, searchGo]
      cases hx : matchAt p [] with
      | some x => simp
      | none => exact absurd hx hm
    | cons c s' =>
      rw [List.nil_append, searchGo]
      cases hx : matchAt p (c :: s') with
      | some x => simp
      | none => exact absurd hx hm
  | cons c pre' ih =>
    intro s hm
    rw [List.cons_append, searchGo]
    cases hx : matchAt p (c :: (pre' ++ s)) with
    | some x => simp
    | none =>
      have := ih s hm
      cases hs : searchGo p (pre' ++ s) with
      | some x => obtain ⟨b, m, r, k⟩ := x; simp
      | none => rw [hs] at this; simp at this

/-! ## Inversion helpers for the match relation -/

lemma Mat_eps_inv {p : List Char} {k k' : Caps} (h : Mat Re.eps p k k') :
    p = [] ∧ k' = k := by cases h; exact ⟨rfl, rfl⟩

lemma Mat_lit_inv {c : Char} {p : List Char} {k k' : Caps} (h : Mat (Re.lit c) p k k') :
    p = [c] ∧ k' = k := by cases h; exact ⟨rfl, rfl⟩

lemma Mat_cls_inv {cc : CC} {p : List Char} {k k' : Caps} (h : Mat (Re.cls cc) p k k') :
    ∃ c, p = [c] ∧ ccMatch cc c = true ∧ k' = k := by
  cases h with | cls hc => exact ⟨_, rfl, hc, rfl⟩

lemma Mat_cat_inv {a b : Re} {p : List Char} {k k' : Caps} (h : Mat (Re.cat a b) p k k') :
    ∃ p₁ p₂ k₁, p = p₁ ++ p₂ ∧ Mat a p₁ k k₁ ∧ Mat b p₂ k₁ k' := by
  cases h with | cat h₁ h₂ => exact ⟨_, _, _, rfl, h₁, h₂⟩

lemma Mat_alt_inv {a b : Re} {p : List Char} {k k' : Caps} (h : Mat (Re.alt a b) p k k') :
    Mat a p k k' ∨ Mat b p k k' := by
  cases h with
  | alt_l h => exact Or.inl h
  | alt_r h => exact Or.inr h

lemma Mat_opt_inv {r : Re} {p : List Char} {k k' : Caps} (h : Mat (Re.opt r) p k k') :
    Mat r p k k' ∨ (p = [] ∧ k' = k) := by
  cases h with
  | opt_some h => exact Or.inl h
  | opt_none => exact Or.inr ⟨rfl, rfl⟩

lemma Mat_grp_inv {n : String} {r : Re} {p : List Char} {k k' : Caps}
    (h : Mat (Re.grp n r) p k k') : ∃ k₁, Mat r p k k₁ ∧ k' = capInsert n p k₁ := by
  cases h with | grp h => exact ⟨_, h, rfl⟩

lemma Mat_lits_inv : ∀ {l p : List Char} {k k' : Caps},
    Mat (l.foldr (fun c r => Re.cat (Re.lit c) r) Re.eps) p k k' → p = l ∧ k' = k := by
  intro l
  induction l with
  | nil => intro p k k' h; exact Mat_eps_inv h
  | cons c l ih =>
    intro p k k' h
    obtain ⟨p₁, p₂, k₁, rfl, h₁, h₂⟩ := Mat_cat_inv h
    obtain ⟨rfl, rfl⟩ := Mat_lit_inv h₁
    obtain ⟨rfl, rfl⟩ := ih h₂
    exact ⟨rfl, rfl⟩

lemma Mat_rstr_inv {s : String} {p : List Char} {k k' : Caps} (h : Mat (rstr s) p k k') :
    p = s.data ∧ k' = k := Mat_lits_inv h

lemma Mat_lits_self : ∀ (l : List Char) (k : Caps),
    Mat (l.foldr (fun c r => Re.cat (Re.lit c) r) Re.eps) l k k := by
  intro l
  induction l with
  | nil => exact fun k => Mat.eps
  | cons c l ih =>
    intro k
    have := Mat.cat (Mat.lit (c := c) (k := k)) (ih k)
    simpa using this

lemma Mat_rstr_self (s : String) (k : Caps) : Mat (rstr s) s.data k k := Mat_lits_self s.data k

lemma Mat_plus_inv {cc : CC} {p : List Char} {k k' : Caps} (h : Mat (rplus cc) p k k') :
    p ≠ [] ∧ (∀ c ∈ p, ccMatch cc c = true) ∧ k' = k := by
  obtain ⟨p₁, p₂, k₁, rfl, h₁, h₂⟩ := Mat_cat_inv h
  obtain ⟨c, rfl, hc, rfl⟩ := Mat_cls_inv h₁
  obtain ⟨rfl, hall⟩ := Mat_star_forall h₂
  refine ⟨by simp, ?_, rfl⟩
  intro d hd
  rcases List.mem_cons.mp hd with rfl | hd'
  · exact hc
  · exact hall d hd'

lemma Mat_plus_self {cc : CC} {p : List Char} {k : Caps} (hne : p ≠ [])
    (hall : ∀ c ∈ p, ccMatch cc c = true) : Mat (rplus cc) p k k := by
  cases p with
  | nil => exact absurd rfl hne
  | cons c p =>
    have := Mat.cat (Mat.cls (hall c (List.mem_cons_self _ _)))
      (Mat_star_of_forall (k := k) (fun d hd => hall d (List.mem_cons_of_mem _ hd)))
    simpa using this

lemma Mat_optSp_inv {p : List Char} {k k' : Caps} (h : Mat optSp p k k') :
    (p = [] ∨ p = [' ']) ∧ k' = k := by
  rcases Mat_opt_inv h with h' | ⟨rfl, rfl⟩
  · obtain ⟨rfl, rfl⟩ := Mat_lit_inv h'
    exact ⟨Or.inr rfl, rfl⟩
  · exact ⟨Or.inl rfl, rfl⟩

lemma Mat_dotStar_self (p : List Char) (k : Caps) : Mat dotStar p k k :=
  Mat_star_of_forall (fun _ _ => rfl)

lemma Mat_dotStar_inv {p : List Char} {k k' : Caps} (h : Mat dotStar p k k') : k' = k :=
  (Mat_star_forall h).1

/-! ## The layout checks: ordered occurrence of the section labels -/

/-- Remainder after the first occurrence of `l` in `s`, if any. -/
def findSplit (l : List Char) : List Char → Option (List Char)
  | [] => if l.isPrefixOf [] then some [] else Option.none
  | c :: s' =>
    if l.isPrefixOf (c :: s') then some ((c :: s').drop l.length)
    else findSplit l s'

/-- The labels occur in order (as substrings, left to right), decidably. -/
def inOrder : List String → List Char → Bool
  | [], _ => true
  | l :: ls, s =>
    match findSplit l.data s with
    | some rest => inOrder ls rest
    | Option.none => false

/-- The labels occur in order, as a proposition. -/
def InOrderP : List String → List Char → Prop
  | [] => fun _ => True
  | l :: ls => fun s => ∃ pre rest, s = pre ++ l.data ++ rest ∧ InOrderP ls rest

lemma findSplit_sound {l : List Char} : ∀ {s rest : List Char},
    findSplit l s = some rest → ∃ pre, s = pre ++ l ++ rest := by
  intro s
  induction s with
  | nil =>
    intro rest h
    rw [findSplit] at h
    by_cases hp : l.isPrefixOf [] = true
    · rw [if_pos hp] at h
      injection h with h'
      obtain ⟨t, ht⟩ := List.isPrefixOf_iff_prefix.mp hp
      cases (List.append_eq_nil.mp ht).1
      exact ⟨[], by simp [← h']⟩
    · rw [if_neg hp] at h; cases h
  | cons c s' ih =>
    intro rest h
    rw [findSplit] at h
    by_cases hp : l.isPrefixOf (c :: s') = true
    · rw [if_pos hp] at h
      injection h with h'
      obtain ⟨t, ht⟩ := List.isPrefixOf_iff_prefix.mp hp
      refine ⟨[], ?_⟩
      rw [List.nil_append, ← ht, ← h', ← ht]
      simp
    · rw [if_neg hp] at h
      obtain ⟨pre, hpre⟩ := ih h
      exact ⟨c :: pre, by simp [hpre]⟩

lemma findSplit_of_exists {l : List Char} : ∀ {s pre rest : List Char},
    s = pre ++ l ++ rest → ∃ rest₀, findSplit l s = some rest₀ ∧ rest <:+ rest₀ := by
  intro s
  induction s with
  | nil =>
    intro pre rest h
    have h0 : pre = [] ∧ l ++ rest = [] := List.append_eq_nil.mp (by simpa using h.symm)
    have h1 : l = [] ∧ rest = [] := List.append_eq_nil.mp h0.2
    refine ⟨[], ?_, by simp [h1.2]⟩
    rw [findSplit, if_pos (by simp [h1.1, List.isPrefixOf_iff_prefix])]
  | cons c s' ih =>
    intro pre rest h
    by_cases hp : l.isPrefixOf (c :: s') = true
    · refine ⟨(c :: s').drop l.length, ?_, ?_⟩
      · rw [findSplit, if_pos hp]
      · have hsuf : rest <:+ c :: s' := ⟨pre ++ l, by simp [h]⟩
        have hsuf₀ : (c :: s').drop l.length <:+ c :: s' := List.drop_suffix _ _
        rcases List.suffix_or_suffix_of_suffix hsuf hsuf₀ with h' | h'
        · exact h'
        · -- the dropped remainder is at least as long as rest
          have hlen : ((c :: s').drop l.length).length ≥ rest.length := by
            have := congrArg List.length h
            simp at this
            simp [this]
            omega
          have := List.IsSuffix.length_le h'
          have : (c :: s').drop l.length = rest := List.IsSuffix.eq_of_length_le h' (by omega)
          rw [this]
    · rw [findSplit, if_neg hp]
      cases pre with
      | nil =>
        exfalso
        apply hp
        rw [List.isPrefixOf_iff_prefix]
        exact ⟨rest, by simpa using h.symm⟩
      | cons c₀ pre' =>
        injection h with h1 h2
        exact ih h2

lemma InOrderP_extend_left {ls : List String} {t : List Char} (x : List Char)
    (h : InOrderP ls t) : InOrderP ls (x ++ t) := by
  cases ls with
  | nil => trivial
  | cons l ls =>
    obtain ⟨pre, rest, rfl, hrest⟩ := h
    exact ⟨x ++ pre, rest, by simp, hrest⟩

lemma InOrderP_extend_right : ∀ {ls : List String} {t : List Char} (x : List Char),
    InOrderP ls t → InOrderP ls (t ++ x) := by
  intro ls
  induction ls with
  | nil => intro t x _; trivial
  | cons l ls ih =>
    intro t x h
    obtain ⟨pre, rest, rfl, hrest⟩ := h
    exact ⟨pre, rest ++ x, by simp, ih x hrest⟩

lemma InOrderP_of_suffix {ls : List String} {t s : List Char} (h : InOrderP ls t)
    (hs : t <:+ s) : InOrderP ls s := by
  obtain ⟨x, rfl⟩ := hs
  exact InOrderP_extend_left x h

lemma inOrder_sound : ∀ {ls : List String} {s : List Char},
    inOrder ls s = true → InOrderP ls s := by
  intro ls
  induction ls with
  | nil => intro s _; trivial
  | cons l ls ih =>
    intro s h
    rw [inOrder] at h
    cases hf : findSplit l.data s with
    | some rest =>
      rw [hf] at h
      obtain ⟨pre, hpre⟩ := findSplit_sound hf
      exact ⟨pre, rest, hpre, ih h⟩
    | none => rw [hf] at h; cases h

lemma inOrder_complete : ∀ {ls : List String} {s : List Char},
    InOrderP ls s → inOrder ls s = true := by
  intro ls
  induction ls with
  | nil => intro s _; rfl
  | cons l ls ih =>
    intro s h
    obtain ⟨pre, rest, rfl, hrest⟩ := h
    obtain ⟨rest₀, hf, hsuf⟩ := findSplit_of_exists rfl
    rw [inOrder, hf]
    exact ih (InOrderP_of_suffix hrest hsuf)

lemma inOrder_iff_InOrderP {ls : List String} {s : List Char} :
    inOrder ls s = true ↔ InOrderP ls s :=
  ⟨inOrder_sound, inOrder_complete⟩

lemma Mat_chkJoin_decomp : ∀ {ls : List String} {p : List Char} {k k' : Caps},
    Mat (chkJoin ls) p k k' → InOrderP ls p := by
  intro ls
  induction ls with
  | nil => intro p k k' _; trivial
  | cons l ls ih =>
    intro p k k' h
    cases ls with
    | nil =>
      obtain ⟨rfl, rfl⟩ := Mat_rstr_inv h
      exact ⟨[], [], by simp, trivial⟩
    | cons l' ls' =>
      have he : chkJoin (l :: l' :: ls') =
          Re.cat (rstr l) (Re.cat dotStar (chkJoin (l' :: ls'))) := rfl
      rw [he] at h
      obtain ⟨p₁, p₂, k₁, rfl, h₁, h₂⟩ := Mat_cat_inv h
      obtain ⟨rfl, rfl⟩ := Mat_rstr_inv h₁
      obtain ⟨w, q, k₂, rfl, hw, hq⟩ := Mat_cat_inv h₂
      exact ⟨[], w ++ q, by simp, InOrderP_extend_left w (ih hq)⟩

lemma InOrderP_chkJoin_mat : ∀ {ls : List String} {s : List Char}, InOrderP ls s →
    ∃ pre q suf, s = pre ++ q ++ suf ∧ Mat (chkJoin ls) q [] [] := by
  intro ls
  induction ls with
  | nil => intro s _; exact ⟨[], [], s, by simp, Mat.eps⟩
  | cons l ls ih =>
    intro s h
    obtain ⟨pre, rest, rfl, hrest⟩ := h
    cases ls with
    | nil => exact ⟨pre, l.data, rest, by simp, Mat_rstr_self l []⟩
    | cons l' ls' =>
      obtain ⟨pre₂, q₂, suf₂, rfl, hq₂⟩ := ih hrest
      refine ⟨pre, l.data ++ pre₂ ++ q₂, suf₂, by simp, ?_⟩
      have he : chkJoin (l :: l' :: ls') =
          Re.cat (rstr l) (Re.cat dotStar (chkJoin (l' :: ls'))) := rfl
      rw [he]
      have := Mat.cat (Mat_rstr_self l []) (Mat.cat (Mat_dotStar_self pre₂ []) hq₂)
      simpa using this

lemma searchGo_chk_isSome_iff {ls : List String} {s : List Char} :
    (searchGo (chkJoin ls) s).isSome = true ↔ InOrderP ls s := by
  constructor
  · intro h
    obtain ⟨⟨b, m, r, k⟩, hx⟩ := Option.isSome_iff_exists.mp h
    obtain ⟨hs, hmm, _⟩ := searchGo_eq_some hx
    obtain ⟨q, hq, hmat, hco⟩ := matchAt_sound hmm
    have hmq : m = q := (List.append_inj' hq rfl).1
    subst hmq
    subst hs
    rw [List.append_assoc]
    exact InOrderP_extend_left b (InOrderP_extend_right r (Mat_chkJoin_decomp hmat))
  · intro h
    obtain ⟨pre, q, suf, rfl, hmat⟩ := InOrderP_chkJoin_mat h
    rw [List.append_assoc]
    exact searchGo_isSome_of_matchAt pre (q ++ suf) (matchAt_complete hmat suf)

lemma searchGo_chk_isSome_eq_inOrder {ls : List String} {s : List Char} :
    (searchGo (chkJoin ls) s).isSome = inOrder ls s := by
  cases hio : inOrder ls s with
  | true => exact searchGo_chk_isSome_iff.mpr (inOrder_sound hio)
  | false =>
    cases h : (searchGo (chkJoin ls) s).isSome with
    | false => rfl
    | true =>
      rw [inOrder_complete (searchGo_chk_isSome_iff.mp h)] at hio
      exact Bool.noConfusion hio

/-! ## Dictionary lemmas -/

def dKeys (d : PyDict) : List String := d.map Prod.fst

lemma dGet_dSet_self : ∀ (d : PyDict) (k : String) (v : PyVal),
    dGet (dSet d k v) k = some v := by
  intro d k v
  induction d with
  | nil => simp [dSet, dGet]
  | cons kv d ih =>
    obtain ⟨k₀, v₀⟩ := kv
    rw [dSet]
    by_cases hk : k₀ = k
    · rw [if_pos hk, dGet, if_pos rfl]
    · rw [if_neg hk, dGet, if_neg hk]
      exact ih

lemma dGet_dSet_ne : ∀ (d : PyDict) {k k' : String} (v : PyVal), k ≠ k' →
    dGet (dSet d k v) k' = dGet d k' := by
  intro d
  induction d with
  | nil => intro k k' v h; simp [dSet, dGet, h]
  | cons kv d ih =>
    intro k k' v h
    obtain ⟨k₀, v₀⟩ := kv
    rw [dSet]
    by_cases hk : k₀ = k
    · rw [if_pos hk, dGet, if_neg (hk ▸ h), dGet, if_neg (by rw [hk]; exact h)]
    · rw [if_neg hk, dGet, dGet]
      by_cases hk' : k₀ = k'
      · rw [if_pos hk', if_pos hk']
      · rw [if_neg hk', if_neg hk']
        exact ih v h

lemma dGet_dErase_ne : ∀ (d : PyDict) {k k' : String}, k ≠ k' →
    dGet (dErase d k) k' = dGet d k' := by
  intro d
  induction d with
  | nil => intro k k' h; rfl
  | cons kv d ih =>
    intro k k' h
    obtain ⟨k₀, v₀⟩ := kv
    rw [dErase]
    by_cases hk : k₀ = k
    · rw [if_pos hk, dGet, if_neg (by rw [hk]; exact h)]
    · rw [if_neg hk, dGet, dGet]
      by_cases hk' : k₀ = k'
      · rw [if_pos hk', if_pos hk']
      · rw [if_neg hk', if_neg hk']
        exact ih h

lemma dGet_eq_none_of_not_mem : ∀ {d : PyDict} {k : String}, k ∉ dKeys d →
    dGet d k = Option.none := by
  intro d
  induction d with
  | nil => intro k _; rfl
  | cons kv d ih =>
    intro k h
    obtain ⟨k₀, v₀⟩ := kv
    rw [dGet]
    simp only [dKeys, List.map_cons, List.mem_cons] at h
    push_neg at h
    rw [if_neg (fun he => h.1 he.symm)]
    exact ih (by simpa [dKeys] using h.2)

lemma dGet_dErase_self : ∀ {d : PyDict} (k : String), (dKeys d).Nodup →
    dGet (dErase d k) k = Option.none := by
  intro d
  induction d with
  | nil => intro k _; rfl
  | cons kv d ih =>
    intro k h
    obtain ⟨k₀, v₀⟩ := kv
    simp only [dKeys, List.map_cons, List.nodup_cons] at h
    rw [dErase]
    by_cases hk : k₀ = k
    · rw [if_pos hk]
      subst hk
      exact dGet_eq_none_of_not_mem h.1
    · rw [if_neg hk, dGet, if_neg hk]
      exact ih k h.2

lemma mem_dKeys_dSet : ∀ {d : PyDict} {k x : String} {v : PyVal},
    x ∈ dKeys (dSet d k v) → x ∈ dKeys d ∨ x = k := by
  intro d
  induction d with
  | nil => intro k x v h; simpa [dSet, dKeys] using h
  | cons kv d ih =>
    intro k x v h
    obtain ⟨k₀, v₀⟩ := kv
    rw [dSet] at h
    by_cases hk : k₀ = k
    · rw [if_pos hk] at h
      simp only [dKeys, List.map_cons, List.mem_cons] at h ⊢
      rcases h with rfl | h
      · exact Or.inr rfl
      · exact Or.inl (Or.inr h)
    · rw [if_neg hk] at h
      simp only [dKeys, List.map_cons, List.mem_cons] at h ⊢
      rcases h with rfl | h
      · exact Or.inl (Or.inl rfl)
      · rcases ih h with h' | h'
        · exact Or.inl (Or.inr h')
        · exact Or.inr h'

lemma dKeys_dSet_nodup : ∀ {d : PyDict} {k : String} {v : PyVal}, (dKeys d).Nodup →
    (dKeys (dSet d k v)).Nodup := by
  intro d
  induction d with
  | nil => intro k v _; simp [dSet, dKeys]
  | cons kv d ih =>
    intro k v h
    obtain ⟨k₀, v₀⟩ := kv
    simp only [dKeys, List.map_cons, List.nodup_cons] at h
    by_cases hk : k₀ = k
    · rw [dSet, if_pos hk]
      subst hk
      simp only [dKeys, List.map_cons, List.nodup_cons]
      exact h
    · rw [dSet, if_neg hk]
      simp only [dKeys, List.map_cons, List.nodup_cons]
      refine ⟨?_, ih h.2⟩
      intro hmem
      rcases mem_dKeys_dSet hmem with h' | h'
      · exact h.1 h'
      · exact hk h'

lemma dKeys_dErase_sublist : ∀ (d : PyDict) (k : String),
    List.Sublist (dKeys (dErase d k)) (dKeys d) := by
  intro d
  induction d with
  | nil => intro k; simp [dErase, dKeys]
  | cons kv d ih =>
    intro k
    obtain ⟨k₀, v₀⟩ := kv
    by_cases hk : k₀ = k
    · rw [dErase, if_pos hk]
      exact List.sublist_cons_self _ _
    · rw [dErase, if_neg hk]
      simpa [dKeys] using (ih k).cons₂ k₀

lemma dKeys_dErase_nodup {d : PyDict} {k : String} (h : (dKeys d).Nodup) :
    (dKeys (dErase d k)).Nodup := h.sublist (dKeys_dErase_sublist d k)

lemma dGet_map_fn {f : String → PyVal} : ∀ {l : List String} {k : String}, k ∈ l →
    dGet (l.map (fun n => (n, f n))) k = some (f k) := by
  intro l
  induction l with
  | nil => intro k h; exact absurd h (List.not_mem_nil k)
  | cons n l ih =>
    intro k h
    rw [List.map_cons, dGet]
    by_cases hn : n = k
    · rw [if_pos hn, hn]
    · rw [if_neg hn]
      rcases List.mem_cons.mp h with rfl | h'
      · exact absurd rfl hn
      · exact ih h'

lemma dGet_map_fn_inv {f : String → PyVal} : ∀ {l : List String} {k : String} {v : PyVal},
    dGet (l.map (fun n => (n, f n))) k = some v → v = f k := by
  intro l
  induction l with
  | nil => intro k v h; cases h
  | cons n l ih =>
    intro k v h
    rw [List.map_cons, dGet] at h
    by_cases hn : n = k
    · rw [if_pos hn] at h
      injection h with h'
      rw [← h', hn]
    · rw [if_neg hn] at h
      exact ih h

lemma dGet_groupdict {p : Re} {caps : Caps} {n : String} (h : n ∈ p.names) :
    dGet (groupdict p caps) n =
      some (match capLookup n caps with
            | some v => PyVal.str (String.mk v)
            | Option.none => PyVal.none) := dGet_map_fn h

lemma dKeys_groupdict (p : Re) (caps : Caps) : dKeys (groupdict p caps) = p.names := by
  simp [dKeys, groupdict, Function.comp_def]

/-! ## Generic behaviour of `convert_type` -/

lemma convert_type_get_notin (ver : Bool) : ∀ (tbl : List (String × Conv)) (m m' : PyDict)
    (k : String), convert_type ver m tbl = Except.ok m' → (∀ c, (k, c) ∉ tbl) →
    dGet m' k = dGet m k := by
  intro tbl
  induction tbl with
  | nil =>
    intro m m' k h _
    injection h with h'
    rw [h']
  | cons kc tbl ih =>
    intro m m' k h hnot
    have hne : kc.1 ≠ k := by
      intro he
      exact hnot kc.2 (by rw [← he]; exact List.mem_cons_self _ _)
    have hnot' : ∀ c, (k, c) ∉ tbl := fun c hc => hnot c (List.mem_cons_of_mem _ hc)
    cases hg : dGet m kc.1 with
    | none =>
      simp only [convert_type, hg] at h
      exact ih m m' k h hnot'
    | some v =>
      simp only [convert_type, hg] at h
      by_cases hv : v = PyVal.none
      · rw [if_pos hv] at h
        rw [ih _ m' k h hnot', dGet_dErase_ne _ hne]
      · rw [if_neg hv] at h
        cases ha : applyConv ver kc.2 v with
        | ok v' =>
          rw [ha] at h
          rw [ih _ m' k h hnot', dGet_dSet_ne _ _ hne]
        | error e => rw [ha] at h; cases h

lemma convert_type_get_popped (ver : Bool) : ∀ (tbl : List (String × Conv)) (m m' : PyDict)
    (k : String) (c : Conv), convert_type ver m tbl = Except.ok m' →
    (tbl.map Prod.fst).Nodup → (dKeys m).Nodup → (k, c) ∈ tbl →
    dGet m k = some PyVal.none → dGet m' k = Option.none := by
  intro tbl
  induction tbl with
  | nil => intro m m' k c _ _ _ hmem _; exact absurd hmem (List.not_mem_nil _)
  | cons kc tbl ih =>
    intro m m' k c h hnodup hmnodup hmem hv
    simp only [List.map_cons, List.nodup_cons] at hnodup
    rcases List.mem_cons.mp hmem with rfl | hmem'
    · simp only [convert_type, hv] at h
      rw [if_pos trivial] at h
      have hnot : ∀ c', (k, c') ∉ tbl := by
        intro c' hc'
        exact hnodup.1 (List.mem_map.mpr ⟨(k, c'), hc', rfl⟩)
      rw [convert_type_get_notin ver tbl _ m' k h hnot]
      exact dGet_dErase_self k hmnodup
    · have hne : kc.1 ≠ k := by
        intro he
        exact hnodup.1 (List.mem_map.mpr ⟨(k, c), hmem', by rw [he]⟩)
      cases hg : dGet m kc.1 with
      | none =>
        simp only [convert_type, hg] at h
        exact ih m m' k c h hnodup.2 hmnodup hmem' hv
      | some v =>
        simp only [convert_type, hg] at h
        by_cases hveq : v = PyVal.none
        · rw [if_pos hveq] at h
          exact ih _ m' k c h hnodup.2 (dKeys_dErase_nodup hmnodup) hmem'
            (by rw [dGet_dErase_ne _ hne]; exact hv)
        · rw [if_neg hveq] at h
          cases ha : applyConv ver kc.2 v with
          | ok v' =>
            rw [ha] at h
            exact ih _ m' k c h hnodup.2 (dKeys_dSet_nodup hmnodup) hmem'
              (by rw [dGet_dSet_ne _ _ hne]; exact hv)
          | error e => rw [ha] at h; cases h

lemma convert_type_get_conv (ver : Bool) : ∀ (tbl : List (String × Conv)) (m m' : PyDict)
    (k : String) (c : Conv) (v : PyVal), convert_type ver m tbl = Except.ok m' →
    (tbl.map Prod.fst).Nodup → (k, c) ∈ tbl → dGet m k = some v → v ≠ PyVal.none →
    ∃ v', applyConv ver c v = Except.ok v' ∧ dGet m' k = some v' := by
  intro tbl
  induction tbl with
  | nil => intro m m' k c v _ _ hmem _ _; exact absurd hmem (List.not_mem_nil _)
  | cons kc tbl ih =>
    intro m m' k c v h hnodup hmem hv hvne
    simp only [List.map_cons, List.nodup_cons] at hnodup
    rcases List.mem_cons.mp hmem with rfl | hmem'
    · simp only [convert_type, hv] at h
      rw [if_neg hvne] at h
      cases ha : applyConv ver c v with
      | ok v' =>
        rw [ha] at h
        have hnot : ∀ c', (k, c') ∉ tbl := by
          intro c' hc'
          exact hnodup.1 (List.mem_map.mpr ⟨(k, c'), hc', rfl⟩)
        refine ⟨v', rfl, ?_⟩
        rw [convert_type_get_notin ver tbl _ m' k h hnot]
        exact dGet_dSet_self m k v'
      | error e => rw [ha] at h; cases h
    · have hne : kc.1 ≠ k := by
        intro he
        exact hnodup.1 (List.mem_map.mpr ⟨(k, c), hmem', by rw [he]⟩)
      cases hg : dGet m kc.1 with
      | none =>
        simp only [convert_type, hg] at h
        exact ih m m' k c v h hnodup.2 hmem' hv hvne
      | some v₀ =>
        simp only [convert_type, hg] at h
        by_cases hveq : v₀ = PyVal.none
        · rw [if_pos hveq] at h
          exact ih _ m' k c v h hnodup.2 hmem'
            (by rw [dGet_dErase_ne _ hne]; exact hv) hvne
        · rw [if_neg hveq] at h
          cases ha : applyConv ver kc.2 v₀ with
          | ok v' =>
            rw [ha] at h
            exact ih _ m' k c v h hnodup.2 hmem'
              (by rw [dGet_dSet_ne _ _ hne]; exact hv) hvne
          | error e => rw [ha] at h; cases h

/-! ## Glue lemmas for the extractor pipelines -/

lemma except_bind_ok {α β : Type} (a : α) (f : α → Except PyErr β) :
    (Except.ok a >>= f) = f a := rfl

lemma except_bind_err {α β : Type} (e : PyErr) (f : α → Except PyErr β) :
    ((Except.error e : Except PyErr α) >>= f) = Except.error e := rfl

lemma search_to_dict_ok {p : Re} {s : List Char} {info : String} {d : PyDict}
    (h : search_to_dict p s info = Except.ok d) :
    ∃ b m rest caps, searchGo p s = some (b, m, rest, caps) ∧ d = groupdict p caps := by
  unfold search_to_dict at h
  cases hs : searchGo p s with
  | none => rw [hs] at h; cases h
  | some x =>
    obtain ⟨b, m, rest, caps⟩ := x
    rw [hs] at h
    injection h with h'
    exact ⟨b, m, rest, caps, rfl, h'.symm⟩

lemma search_to_dict_err {p : Re} {s : List Char} {info : String} {e : PyErr}
    (h : search_to_dict p s info = Except.error e) : e = PyErr.noMatch info := by
  unfold search_to_dict at h
  cases hs : searchGo p s with
  | none => rw [hs] at h; injection h with h'; exact h'.symm
  | some x => obtain ⟨b, m, rest, caps⟩ := x; rw [hs] at h; cases h

lemma dGetE_ok {d : PyDict} {k : String} {v : PyVal} :
    dGetE d k = Except.ok v ↔ dGet d k = some v := by
  unfold dGetE
  cases hg : dGet d k with
  | none => simp
  | some w => simp

lemma mkDate_ne_unknown (y m d : ℕ) : mkDate y m d ≠ Except.error PyErr.unknownCategory := by
  unfold mkDate
  split <;> simp

lemma fromisoformat_ne_unknown (ver : Bool) (s : String) :
    fromisoformat ver s ≠ Except.error PyErr.unknownCategory := by
  unfold fromisoformat
  split
  · split
    · apply mkDate_ne_unknown
    · simp
  · split
    · apply mkDate_ne_unknown
    · simp
  · simp

lemma date_from_iso_format_ne_unknown (ver : Bool) (v : PyVal) :
    date_from_iso_format ver v ≠ Except.error PyErr.unknownCategory := by
  unfold date_from_iso_format
  split
  · simp
  · split
    · split
      · apply mkDate_ne_unknown
      · simp
    · apply fromisoformat_ne_unknown
  · simp

lemma pyFloatConv_ne_unknown (v : PyVal) :
    pyFloatConv v ≠ Except.error PyErr.unknownCategory := by
  cases v with
  | str s =>
    simp only [pyFloatConv]
    cases pyFloatParse s <;> simp
  | none => simp [pyFloatConv]
  | int n => simp [pyFloatConv]
  | float q => simp [pyFloatConv]
  | date y m d => simp [pyFloatConv]

lemma pyIntConv_ne_unknown (v : PyVal) :
    pyIntConv v ≠ Except.error PyErr.unknownCategory := by
  cases v with
  | str s =>
    simp only [pyIntConv]
    cases pyIntParse s <;> simp
  | none => simp [pyIntConv]
  | int n => simp [pyIntConv]
  | float q => simp [pyIntConv]
  | date y m d => simp [pyIntConv]

lemma applyConv_ne_unknown (ver : Bool) (c : Conv) (v : PyVal) :
    applyConv ver c v ≠ Except.error PyErr.unknownCategory := by
  cases c with
  | toFloat => exact pyFloatConv_ne_unknown v
  | toInt => exact pyIntConv_ne_unknown v
  | stripNewlines => cases v <;> simp [applyConv]
  | addQuote => simp [applyConv]
  | toDate => exact date_from_iso_format_ne_unknown ver v

lemma convert_type_ne_unknown (ver : Bool) : ∀ (tbl : List (String × Conv)) (m : PyDict),
    convert_type ver m tbl ≠ Except.error PyErr.unknownCategory := by
  intro tbl
  induction tbl with
  | nil => intro m h; cases h
  | cons kc tbl ih =>
    intro m h
    cases hg : dGet m kc.1 with
    | none =>
      simp only [convert_type, hg] at h
      exact ih m h
    | some v =>
      simp only [convert_type, hg] at h
      by_cases hv : v = PyVal.none
      · rw [if_pos hv] at h
        exact ih _ h
      · rw [if_neg hv] at h
        cases ha : applyConv ver kc.2 v with
        | ok v' =>
          rw [ha] at h
          exact ih _ h
        | error e =>
          rw [ha] at h
          injection h with h'
          exact applyConv_ne_unknown ver kc.2 v (by rw [ha, h'])

lemma pyFloatOf_ne_unknown (v : PyVal) : pyFloatOf v ≠ Except.error PyErr.unknownCategory := by
  cases v with
  | str s =>
    simp only [pyFloatOf]
    cases pyFloatParse s <;> simp
  | none => simp [pyFloatOf]
  | int n => simp [pyFloatOf]
  | float q => simp [pyFloatOf]
  | date y m d => simp [pyFloatOf]

lemma sumConsumption_ne_unknown (d : PyDict) : ∀ (bs : List String),
    sumConsumption d bs ≠ Except.error PyErr.unknownCategory := by
  intro bs
  induction bs with
  | nil => intro h; cases h
  | cons b bs ih =>
    intro h
    rw [sumConsumption] at h
    cases hg : dGetE d (b ++ "合计电量") with
    | error e =>
      rw [hg, except_bind_err] at h
      injection h with h'
      subst h'
      unfold dGetE at hg
      cases hgg : dGet d (b ++ "合计电量") with
      | none => rw [hgg] at hg; cases hg
      | some v => rw [hgg] at hg; cases hg
    | ok v =>
      rw [hg, except_bind_ok] at h
      cases hf : pyFloatOf v with
      | error e =>
        rw [hf, except_bind_err] at h
        injection h with h'
        exact pyFloatOf_ne_unknown v (by rw [hf, h'])
      | ok q =>
        rw [hf, except_bind_ok] at h
        cases hr : sumConsumption d bs with
        | error e =>
          rw [hr, except_bind_err] at h
          injection h with h'
          exact ih (by rw [hr, h'])
        | ok qs => rw [hr, except_bind_ok] at h; cases h

lemma extract_consumption_nontou_ne_unknown (ver : Bool) (text : List Char) :
    extract_consumption_nontou ver text ≠ Except.error PyErr.unknownCategory := by
  intro h
  rw [extract_consumption_nontou] at h
  cases h₁ : search_to_dict CONSUMPTION_NONTOU_PATTERN text "非分时电量信息" with
  | error e =>
    rw [h₁, except_bind_err] at h
    injection h with h'
    subst h'
    cases search_to_dict_err h₁
  | ok m₀ =>
    rw [h₁, except_bind_ok] at h
    cases h₂ : convert_type ver m₀ CONSUMPTION_NONTOU_CONVERSIONS with
    | error e =>
      rw [h₂, except_bind_err] at h
      injection h with h'
      exact convert_type_ne_unknown ver _ m₀ (by rw [h₂, h'])
    | ok m₁ =>
      rw [h₂, except_bind_ok] at h
      cases h₃ : dGetE m₁ "有功总表计资产编号" with
      | error e =>
        rw [h₃, except_bind_err] at h
        injection h with h'
        subst h'
        unfold dGetE at h₃
        cases hg : dGet m₁ "有功总表计资产编号" with
        | none => rw [hg] at h₃; cases h₃
        | some v => rw [hg] at h₃; cases h₃
      | ok v => rw [h₃, except_bind_ok] at h; cases h

lemma extract_consumption_tou_ne_unknown (ver : Bool) (text : List Char) :
    extract_consumption_tou ver text ≠ Except.error PyErr.unknownCategory := by
  intro h
  rw [extract_consumption_tou] at h
  cases h₁ : search_to_dict CONSUMPTION_TOU_PATTERN text "分时电量信息" with
  | error e =>
    rw [h₁, except_bind_err] at h
    injection h with h'
    subst h'
    cases search_to_dict_err h₁
  | ok m₀ =>
    rw [h₁, except_bind_ok] at h
    cases h₂ : convert_type ver m₀ CONSUMPTION_TOU_CONVERSIONS with
    | error e =>
      rw [h₂, except_bind_err] at h
      injection h with h'
      exact convert_type_ne_unknown ver _ m₀ (by rw [h₂, h'])
    | ok m₁ =>
      rw [h₂, except_bind_ok] at h
      cases h₃ : dGetE m₁ "平表计资产编号" with
      | error e =>
        rw [h₃, except_bind_err] at h
        injection h with h'
        subst h'
        unfold dGetE at h₃
        cases hg : dGet m₁ "平表计资产编号" with
        | none => rw [hg] at h₃; cases h₃
        | some v => rw [hg] at h₃; cases h₃
      | ok v =>
        rw [h₃, except_bind_ok] at h
        dsimp only [] at h
        cases h₄ : sumConsumption (dSet m₁ "表计资产编号" v) CONSUMPTION_TOU_BANDS.dropLast with
        | error e =>
          rw [h₄, except_bind_err] at h
          injection h with h'
          exact sumConsumption_ne_unknown _ _ (by rw [h₄, h'])
        | ok q => rw [h₄, except_bind_ok] at h; cases h

/-! ## Branch analyses for the two consumption pipelines -/

lemma nontou_branch_analysis {ver : Bool} {text : List Char} {r : PyDict}
    (h : extract_consumption_nontou ver text = Except.ok r) :
    ∃ b m rest caps m₁ v,
      searchGo CONSUMPTION_NONTOU_PATTERN text = some (b, m, rest, caps) ∧
      convert_type ver (groupdict CONSUMPTION_NONTOU_PATTERN caps)
        CONSUMPTION_NONTOU_CONVERSIONS = Except.ok m₁ ∧
      dGet m₁ "有功总表计资产编号" = some v ∧
      r = dSet m₁ "表计资产编号" v := by
  rw [extract_consumption_nontou] at h
  cases h₁ : search_to_dict CONSUMPTION_NONTOU_PATTERN text "非分时电量信息" with
  | error e => rw [h₁, except_bind_err] at h; cases h
  | ok m₀ =>
    rw [h₁, except_bind_ok] at h
    obtain ⟨b, m, rest, caps, hs, rfl⟩ := search_to_dict_ok h₁
    cases h₂ : convert_type ver (groupdict CONSUMPTION_NONTOU_PATTERN caps)
        CONSUMPTION_NONTOU_CONVERSIONS with
    | error e => rw [h₂, except_bind_err] at h; cases h
    | ok m₁ =>
      rw [h₂, except_bind_ok] at h
      cases h₃ : dGetE m₁ "有功总表计资产编号" with
      | error e => rw [h₃, except_bind_err] at h; cases h
      | ok v =>
        rw [h₃, except_bind_ok] at h
        injection h with h'
        exact ⟨b, m, rest, caps, m₁, v, hs, h₂, dGetE_ok.mp h₃, h'.symm⟩

lemma tou_branch_analysis {ver : Bool} {text : List Char} {r : PyDict}
    (h : extract_consumption_tou ver text = Except.ok r) :
    ∃ b m rest caps m₁ v qsum,
      searchGo CONSUMPTION_TOU_PATTERN text = some (b, m, rest, caps) ∧
      convert_type ver (groupdict CONSUMPTION_TOU_PATTERN caps)
        CONSUMPTION_TOU_CONVERSIONS = Except.ok m₁ ∧
      dGet m₁ "平表计资产编号" = some v ∧
      sumConsumption (dSet m₁ "表计资产编号" v) CONSUMPTION_TOU_BANDS.dropLast =
        Except.ok qsum ∧
      r = dSet (dSet m₁ "表计资产编号" v) "有功总合计电量"
            (PyVal.str (pyFloatRepr qsum)) := by
  rw [extract_consumption_tou] at h
  cases h₁ : search_to_dict CONSUMPTION_TOU_PATTERN text "分时电量信息" with
  | error e => rw [h₁, except_bind_err] at h; cases h
  | ok m₀ =>
    rw [h₁, except_bind_ok] at h
    obtain ⟨b, m, rest, caps, hs, rfl⟩ := search_to_dict_ok h₁
    cases h₂ : convert_type ver (groupdict CONSUMPTION_TOU_PATTERN caps)
        CONSUMPTION_TOU_CONVERSIONS with
    | error e => rw [h₂, except_bind_err] at h; cases h
    | ok m₁ =>
      rw [h₂, except_bind_ok] at h
      cases h₃ : dGetE m₁ "平表计资产编号" with
      | error e => rw [h₃, except_bind_err] at h; cases h
      | ok v =>
        rw [h₃, except_bind_ok] at h
        dsimp only [] at h
        cases h₄ : sumConsumption (dSet m₁ "表计资产编号" v)
            CONSUMPTION_TOU_BANDS.dropLast with
        | error e => rw [h₄, except_bind_err] at h; cases h
        | ok qsum =>
          rw [h₄, except_bind_ok] at h
          injection h with h'
          exact ⟨b, m, rest, caps, m₁, v, qsum, hs, h₂, dGetE_ok.mp h₃, h₄, h'.symm⟩

/-! ## Mandatory groups always capture -/

lemma capLookup_capInsert (n n' : String) (v : List Char) (k : Caps) :
    capLookup n (capInsert n' v k) = if n' = n then some v else capLookup n k := rfl

lemma Mat_caps_mono {r : Re} {p : List Char} {k k' : Caps} (h : Mat r p k k') :
    ∀ n, (capLookup n k).isSome = true → (capLookup n k').isSome = true := by
  induction h with
  | eps => exact fun n h => h
  | lit => exact fun n h => h
  | cls _ => exact fun n h => h
  | star_nil => exact fun n h => h
  | star_cons _ _ ih => exact fun n h => h
  | opt_some _ ih => exact ih
  | opt_none => exact fun n h => h
  | cat _ _ ih₁ ih₂ => exact fun n h => ih₂ n (ih₁ n h)
  | alt_l _ ih => exact ih
  | alt_r _ ih => exact ih
  | @grp n' r s k k' _ ih =>
    intro n h
    rw [capLookup_capInsert]
    by_cases he : n' = n
    · rw [if_pos he]; rfl
    · rw [if_neg he]; exact ih n h

lemma mustGrp_capture {r : Re} {p : List Char} {k k' : Caps} (h : Mat r p k k') :
    ∀ n, mustGrp r n = true → (capLookup n k').isSome = true := by
  induction h with
  | eps => intro n hm; cases hm
  | lit => intro n hm; cases hm
  | cls _ => intro n hm; cases hm
  | star_nil => intro n hm; cases hm
  | star_cons _ _ _ => intro n hm; cases hm
  | opt_some _ _ => intro n hm; cases hm
  | opt_none => intro n hm; cases hm
  | cat h₁ h₂ ih₁ ih₂ =>
    intro n hm
    rw [mustGrp] at hm
    rcases Bool.or_eq_true_iff.mp hm with hm' | hm'
    · exact Mat_caps_mono h₂ n (ih₁ n hm')
    · exact ih₂ n hm'
  | alt_l _ ih =>
    intro n hm
    rw [mustGrp] at hm
    exact ih n (Bool.and_eq_true_iff.mp hm).1
  | alt_r _ ih =>
    intro n hm
    rw [mustGrp] at hm
    exact ih n (Bool.and_eq_true_iff.mp hm).2
  | @grp n' r s k k' _ ih =>
    intro n hm
    rw [mustGrp] at hm
    rw [capLookup_capInsert]
    by_cases he : n' = n
    · rw [if_pos he]; rfl
    · rw [if_neg he]
      rcases Bool.or_eq_true_iff.mp hm with hm' | hm'
      · exact absurd (by exact beq_iff_eq.mp hm') he
      · exact ih n hm'

/-- A mandatory group of a successful search has captured some text. -/
lemma searchGo_mustGrp_capture {p : Re} {s b m rest : List Char} {caps : Caps}
    (hs : searchGo p s = some (b, m, rest, caps)) {n : String}
    (hm : mustGrp p n = true) : ∃ v, capLookup n caps = some v := by
  obtain ⟨_, hmm, _⟩ := searchGo_eq_some hs
  obtain ⟨q, _, hmat, _⟩ := matchAt_sound hmm
  have := mustGrp_capture hmat n hm
  exact Option.isSome_iff_exists.mp this

/-! ## Claims -/

lemma nontou_check_eq_inOrder (text : List Char) :
    (searchGo CONSUMPTION_NONTOU_CHECK_PATTERN text).isSome =
      inOrder CONSUMPTION_NONTOU_BANDS text :=
  searchGo_chk_isSome_eq_inOrder

lemma tou_check_eq_inOrder (text : List Char) :
    (searchGo CONSUMPTION_TOU_CHECK_PATTERN text).isSome =
      inOrder CONSUMPTION_TOU_BANDS text :=
  searchGo_chk_isSome_eq_inOrder

/-- C1: for every normalized page text, if the non-time-differentiated check
(labels 有功总 then 无功总 in order) matches, `extract_consumption` applies the
non-time-differentiated table pipeline; otherwise, if the time-differentiated
check (尖, 峰, 平, 谷, 无功总 in strict order) matches, it applies the
time-differentiated pipeline; and it raises the unknown-consumption-category
ValueError exactly when neither check matches. -/
theorem C1_layout_dispatch_and_unknown_error (ver : Bool) (text : List Char) :
    (inOrder CONSUMPTION_NONTOU_BANDS text = true →
      extract_consumption ver text = extract_consumption_nontou ver text) ∧
    (inOrder CONSUMPTION_NONTOU_BANDS text = false →
      inOrder CONSUMPTION_TOU_BANDS text = true →
      extract_consumption ver text = extract_consumption_tou ver text) ∧
    (extract_consumption ver text = Except.error PyErr.unknownCategory ↔
      inOrder CONSUMPTION_NONTOU_BANDS text = false ∧
      inOrder CONSUMPTION_TOU_BANDS text = false) := by
  have e₁ := nontou_check_eq_inOrder text
  have e₂ := tou_check_eq_inOrder text
  refine ⟨?_, ?_, ?_, ?_⟩
  · intro h₁
    simp [extract_consumption, e₁, h₁]
  · intro h₁ h₂
    simp [extract_consumption, e₁, e₂, h₁, h₂]
  · intro h
    cases hb₁ : inOrder CONSUMPTION_NONTOU_BANDS text with
    | true =>
      have hd : extract_consumption ver text = extract_consumption_nontou ver text := by
        simp [extract_consumption, e₁, hb₁]
      rw [hd] at h
      exact absurd h (extract_consumption_nontou_ne_unknown ver text)
    | false =>
      cases hb₂ : inOrder CONSUMPTION_TOU_BANDS text with
      | true =>
        have hd : extract_consumption ver text = extract_consumption_tou ver text := by
          simp [extract_consumption, e₁, e₂, hb₁, hb₂]
        rw [hd] at h
        exact absurd h (extract_consumption_tou_ne_unknown ver text)
      | false => exact ⟨rfl, rfl⟩
  · rintro ⟨hf₁, hf₂⟩
    simp [extract_consumption, e₁, e₂, hf₁, hf₂]

theorem C1_layout_dispatch_and_unknown_error_witness :
    extract_consumption true sampleNontouText =
      extract_consumption_nontou true sampleNontouText ∧
    extract_consumption true ("abc".data) = Except.error PyErr.unknownCategory :=
  ⟨(C1_layout_dispatch_and_unknown_error true sampleNontouText).1 (by decide),
   (C1_layout_dispatch_and_unknown_error true ("abc".data)).2.2.mpr ⟨by decide, by decide⟩⟩

/-- C9: when both layout checks match (the five time-of-use labels appear in
strict order and 有功总 also appears before 无功总), `extract_consumption`
applies only the non-time-differentiated table pipeline: the
time-differentiated pattern is never attempted. -/
theorem C9_nontou_priority_on_double_match (ver : Bool) (text : List Char)
    (h₁ : inOrder CONSUMPTION_NONTOU_BANDS text = true)
    (h₂ : inOrder CONSUMPTION_TOU_BANDS text = true) :
    extract_consumption ver text = extract_consumption_nontou ver text := by
  simp [extract_consumption, nontou_check_eq_inOrder, h₁]

theorem C9_nontou_priority_on_double_match_witness :
    inOrder CONSUMPTION_NONTOU_BANDS sampleBothChecksText = true ∧
    inOrder CONSUMPTION_TOU_BANDS sampleBothChecksText = true ∧
    extract_consumption true sampleBothChecksText =
      extract_consumption_nontou true sampleBothChecksText :=
  ⟨by decide, by decide,
   C9_nontou_priority_on_double_match true sampleBothChecksText (by decide) (by decide)⟩

lemma mem_bandTable {bands : List String} {band field : String} {c : Conv}
    (hb : band ∈ bands) (hf : (field, c) ∈ CONSUMPTION_CONVERSIONS) :
    (band ++ field, c) ∈ bandTable bands := by
  unfold bandTable
  rw [List.mem_flatMap]
  exact ⟨(field, c), hf, List.mem_map.mpr ⟨band, hb, rfl⟩⟩

/-- C5: on any record matched by either consumption layout, the conversion
tables send every 倍率 column to a Python int, every other numeric column to
a Python float, and the 表计资产编号 column to the captured string with the
embedded newline characters removed. -/
theorem C5_conversion_table_semantics (ver : Bool) (bands : List String)
    (tbl : List (String × Conv))
    (hbt : (bands = CONSUMPTION_NONTOU_BANDS ∧ tbl = CONSUMPTION_NONTOU_CONVERSIONS) ∨
           (bands = CONSUMPTION_TOU_BANDS ∧ tbl = CONSUMPTION_TOU_CONVERSIONS))
    (band : String) (hband : band ∈ bands) (m m' : PyDict)
    (hok : convert_type ver m tbl = Except.ok m') :
    (∀ s : String, dGet m (band ++ "倍率") = some (PyVal.str s) →
      ∃ n, pyIntParse s = some n ∧ dGet m' (band ++ "倍率") = some (PyVal.int n)) ∧
    (∀ field ∈ NUMERIC_FIELDS, ∀ s : String,
      dGet m (band ++ field) = some (PyVal.str s) →
      ∃ q, pyFloatParse s = some q ∧ dGet m' (band ++ field) = some (PyVal.float q)) ∧
    (∀ s : String, dGet m (band ++ "表计资产编号") = some (PyVal.str s) →
      dGet m' (band ++ "表计资产编号") =
        some (PyVal.str (String.mk (s.data.filter (fun c => c ≠ '\n'))))) := by
  have hnodup : (tbl.map Prod.fst).Nodup := by
    rcases hbt with ⟨_, rfl⟩ | ⟨_, rfl⟩ <;> decide
  have htbl : ∀ (field : String) (c : Conv), (field, c) ∈ CONSUMPTION_CONVERSIONS →
      (band ++ field, c) ∈ tbl := by
    rcases hbt with ⟨rfl, rfl⟩ | ⟨rfl, rfl⟩ <;>
      exact fun field c hf => mem_bandTable hband hf
  refine ⟨?_, ?_, ?_⟩
  · intro s hget
    obtain ⟨v', happ, hget'⟩ := convert_type_get_conv ver tbl m m' (band ++ "倍率")
      Conv.toInt (PyVal.str s) hok hnodup (htbl _ _ (by decide)) hget (by simp)
    simp only [applyConv, pyIntConv] at happ
    cases hp : pyIntParse s with
    | none => rw [hp] at happ; cases happ
    | some n =>
      rw [hp] at happ
      injection happ with h'
      exact ⟨n, rfl, by rw [hget', ← h']⟩
  · intro field hf s hget
    have hfc : (field, Conv.toFloat) ∈ CONSUMPTION_CONVERSIONS := by
      fin_cases hf <;> decide
    obtain ⟨v', happ, hget'⟩ := convert_type_get_conv ver tbl m m' (band ++ field)
      Conv.toFloat (PyVal.str s) hok hnodup (htbl _ _ hfc) hget (by simp)
    simp only [applyConv, pyFloatConv] at happ
    cases hp : pyFloatParse s with
    | none => rw [hp] at happ; cases happ
    | some q =>
      rw [hp] at happ
      injection happ with h'
      exact ⟨q, rfl, by rw [hget', ← h']⟩
  · intro s hget
    obtain ⟨v', happ, hget'⟩ := convert_type_get_conv ver tbl m m' (band ++ "表计资产编号")
      Conv.stripNewlines (PyVal.str s) hok hnodup (htbl _ _ (by decide)) hget (by simp)
    simp only [applyConv] at happ
    injection happ with h'
    rw [hget', ← h']

theorem C5_conversion_table_semantics_witness :
    (∃ n, pyIntParse "5" = some n ∧ dGet sampleConvDictOut "尖倍率" = some (PyVal.int n)) ∧
    (∃ q, pyFloatParse "10.5" = some q ∧
      dGet sampleConvDictOut "尖合计电量" = some (PyVal.float q)) ∧
    dGet sampleConvDictOut "尖表计资产编号" =
      some (PyVal.str (String.mk ((String.mk ['M', '\n', '1']).data.filter
        (fun c => c ≠ '\n')))) := by
  have thm := C5_conversion_table_semantics true CONSUMPTION_TOU_BANDS
    CONSUMPTION_TOU_CONVERSIONS (Or.inr ⟨rfl, rfl⟩) "尖" (by decide)
    sampleConvDict sampleConvDictOut (by rfl)
  exact ⟨thm.1 "5" (by rfl), thm.2.1 "合计电量" (by decide) "10.5" (by rfl),
    thm.2.2 (String.mk ['M', '\n', '1']) (by rfl)⟩

lemma sampleNontou_extract_eq :
    extract_consumption true sampleNontouText = Except.ok sampleNontouRecord := rfl

lemma sampleTou_extract_eq :
    extract_consumption true sampleTouText = Except.ok sampleTouRecord := rfl

/-- C6: on every successful consumption extraction, the overall 表计资产编号
field equals the 有功总 band meter asset id in the non-time-differentiated
layout and the 平 band meter asset id in the time-differentiated layout. -/
theorem C6_overall_meter_asset_id (ver : Bool) (text : List Char) (r : PyDict)
    (h : extract_consumption ver text = Except.ok r) :
    (inOrder CONSUMPTION_NONTOU_BANDS text = true →
      ∃ v, dGet r "有功总表计资产编号" = some v ∧ dGet r "表计资产编号" = some v) ∧
    (inOrder CONSUMPTION_NONTOU_BANDS text = false →
      ∃ v, dGet r "平表计资产编号" = some v ∧ dGet r "表计资产编号" = some v) := by
  constructor
  · intro hchk
    have hd : extract_consumption ver text = extract_consumption_nontou ver text := by
      simp [extract_consumption, nontou_check_eq_inOrder, hchk]
    rw [hd] at h
    obtain ⟨b, m, rest, caps, m₁, v, hs, hc, hv, rfl⟩ := nontou_branch_analysis h
    refine ⟨v, ?_, dGet_dSet_self _ _ _⟩
    rw [dGet_dSet_ne _ _ (by decide)]
    exact hv
  · intro hchk
    cases hb₂ : inOrder CONSUMPTION_TOU_BANDS text with
    | false =>
      have hu : extract_consumption ver text = Except.error PyErr.unknownCategory := by
        simp [extract_consumption, nontou_check_eq_inOrder, tou_check_eq_inOrder, hchk, hb₂]
      rw [hu] at h
      cases h
    | true =>
      have hd : extract_consumption ver text = extract_consumption_tou ver text := by
        simp [extract_consumption, nontou_check_eq_inOrder, tou_check_eq_inOrder, hchk, hb₂]
      rw [hd] at h
      obtain ⟨b, m, rest, caps, m₁, v, qsum, hs, hc, hv, hsum, rfl⟩ := tou_branch_analysis h
      refine ⟨v, ?_, ?_⟩
      · rw [dGet_dSet_ne _ _ (by decide), dGet_dSet_ne _ _ (by decide)]
        exact hv
      · rw [dGet_dSet_ne _ _ (by decide)]
        exact dGet_dSet_self _ _ _

theorem C6_overall_meter_asset_id_witness :
    (∃ v, dGet sampleNontouRecord "有功总表计资产编号" = some v ∧
      dGet sampleNontouRecord "表计资产编号" = some v) ∧
    (∃ v, dGet sampleTouRecord "平表计资产编号" = some v ∧
      dGet sampleTouRecord "表计资产编号" = some v) :=
  ⟨(C6_overall_meter_asset_id true sampleNontouText sampleNontouRecord
      sampleNontou_extract_eq).1 (by decide),
   (C6_overall_meter_asset_id true sampleTouText sampleTouRecord
      sampleTou_extract_eq).2 (by decide)⟩

/-- C3: on every successful non-time-differentiated extraction, the record
field 有功总合计电量 is the float conversion of the text captured for the
有功总 row total-consumption column, read from the matched text. -/
theorem C3_nontou_total_as_printed (ver : Bool) (text : List Char) (r : PyDict)
    (hchk : inOrder CONSUMPTION_NONTOU_BANDS text = true)
    (h : extract_consumption ver text = Except.ok r) :
    ∃ b m rest caps s q,
      searchGo CONSUMPTION_NONTOU_PATTERN text = some (b, m, rest, caps) ∧
      capLookup "有功总合计电量" caps = some s ∧
      pyFloatParse (String.mk s) = some q ∧
      dGet r "有功总合计电量" = some (PyVal.float q) := by
  have hd : extract_consumption ver text = extract_consumption_nontou ver text := by
    simp [extract_consumption, nontou_check_eq_inOrder, hchk]
  rw [hd] at h
  obtain ⟨b, m, rest, caps, m₁, v, hs, hc, hv, rfl⟩ := nontou_branch_analysis h
  obtain ⟨s, hcap⟩ := searchGo_mustGrp_capture hs (n := "有功总合计电量") (by decide)
  have hget : dGet (groupdict CONSUMPTION_NONTOU_PATTERN caps) "有功总合计电量" =
      some (PyVal.str (String.mk s)) := by
    rw [dGet_groupdict (by decide), hcap]
  obtain ⟨v', happ, hget'⟩ := convert_type_get_conv ver CONSUMPTION_NONTOU_CONVERSIONS
    _ m₁ "有功总合计电量" Conv.toFloat (PyVal.str (String.mk s)) hc (by decide)
    (by decide) hget (by simp)
  simp only [applyConv, pyFloatConv] at happ
  cases hp : pyFloatParse (String.mk s) with
  | none => rw [hp] at happ; cases happ
  | some q =>
    rw [hp] at happ
    injection happ with h'
    refine ⟨b, m, rest, caps, s, q, hs, hcap, hp, ?_⟩
    rw [dGet_dSet_ne _ _ (by decide), hget', ← h']

theorem C3_nontou_total_as_printed_witness :
    ∃ b m rest caps s q,
      searchGo CONSUMPTION_NONTOU_PATTERN sampleNontouText = some (b, m, rest, caps) ∧
      capLookup "有功总合计电量" caps = some s ∧
      pyFloatParse (String.mk s) = some q ∧
      dGet sampleNontouRecord "有功总合计电量" = some (PyVal.float q) :=
  C3_nontou_total_as_printed true sampleNontouText sampleNontouRecord
    (by decide) sampleNontou_extract_eq

lemma sumConsumption_cons {d : PyDict} {b : String} {bs : List String} {q : ℚ}
    (h : sumConsumption d (b :: bs) = Except.ok q) :
    ∃ v qb qrest, dGet d (b ++ "合计电量") = some v ∧ pyFloatOf v = Except.ok qb ∧
      sumConsumption d bs = Except.ok qrest ∧ q = qb + qrest := by
  rw [sumConsumption] at h
  cases hg : dGetE d (b ++ "合计电量") with
  | error e => rw [hg, except_bind_err] at h; cases h
  | ok v =>
    rw [hg, except_bind_ok] at h
    cases hf : pyFloatOf v with
    | error e => rw [hf, except_bind_err] at h; cases h
    | ok qb =>
      rw [hf, except_bind_ok] at h
      cases hr : sumConsumption d bs with
      | error e => rw [hr, except_bind_err] at h; cases h
      | ok qrest =>
        rw [hr, except_bind_ok] at h
        injection h with h'
        exact ⟨v, qb, qrest, dGetE_ok.mp hg, hf, rfl, h'.symm⟩

lemma sumConsumption_nil {d : PyDict} {q : ℚ} (h : sumConsumption d [] = Except.ok q) :
    q = 0 := by
  rw [sumConsumption] at h
  injection h with h'
  exact h'.symm

/-- A time-of-use band total that survives conversion is a float. -/
lemma tou_band_total_is_float {ver : Bool} {caps : Caps} {m₁ : PyDict} {b : String}
    {v : PyVal}
    (hc : convert_type ver (groupdict CONSUMPTION_TOU_PATTERN caps)
      CONSUMPTION_TOU_CONVERSIONS = Except.ok m₁)
    (hb : b ∈ CONSUMPTION_TOU_BANDS)
    (hv : dGet m₁ (b ++ "合计电量") = some v) : ∃ q, v = PyVal.float q := by
  have hmem : b ++ "合计电量" ∈ CONSUMPTION_TOU_PATTERN.names := by
    fin_cases hb <;> decide
  have hgv := @dGet_groupdict CONSUMPTION_TOU_PATTERN caps (b ++ "合计电量") hmem
  have htblmem : (b ++ "合计电量", Conv.toFloat) ∈ CONSUMPTION_TOU_CONVERSIONS :=
    mem_bandTable hb (by decide)
  cases hcap : capLookup (b ++ "合计电量") caps with
  | none =>
    rw [hcap] at hgv
    have hpop := convert_type_get_popped ver CONSUMPTION_TOU_CONVERSIONS _ m₁
      (b ++ "合计电量") Conv.toFloat hc (by decide)
      (by rw [dKeys_groupdict]; decide) htblmem hgv
    rw [hpop] at hv
    cases hv
  | some s =>
    rw [hcap] at hgv
    obtain ⟨v', happ, hget'⟩ := convert_type_get_conv ver CONSUMPTION_TOU_CONVERSIONS
      _ m₁ (b ++ "合计电量") Conv.toFloat (PyVal.str (String.mk s)) hc (by decide)
      htblmem hgv (by simp)
    simp only [applyConv, pyFloatConv] at happ
    cases hp : pyFloatParse (String.mk s) with
    | none => rw [hp] at happ; cases happ
    | some q =>
      rw [hp] at happ
      injection happ with h'
      rw [hget'] at hv
      injection hv with h''
      exact ⟨q, by rw [← h'', ← h']⟩

/-- C2: on every successful time-differentiated extraction, the record field
有功总合计电量 is synthesised as the textual rendering of the sum of the four
per-band totals for 尖, 峰, 平 and 谷 (excluding 无功总), and those four
fields hold exactly the floats being summed; nothing is read from the text
for the synthesised field. -/
theorem C2_tou_total_synthesised (ver : Bool) (text : List Char) (r : PyDict)
    (hchk : inOrder CONSUMPTION_NONTOU_BANDS text = false)
    (h : extract_consumption ver text = Except.ok r) :
    ∃ q1 q2 q3 q4,
      dGet r "尖合计电量" = some (PyVal.float q1) ∧
      dGet r "峰合计电量" = some (PyVal.float q2) ∧
      dGet r "平合计电量" = some (PyVal.float q3) ∧
      dGet r "谷合计电量" = some (PyVal.float q4) ∧
      dGet r "有功总合计电量" = some (PyVal.str (pyFloatRepr (q1 + q2 + q3 + q4))) := by
  cases hb₂ : inOrder CONSUMPTION_TOU_BANDS text with
  | false =>
    have hu : extract_consumption ver text = Except.error PyErr.unknownCategory := by
      simp [extract_consumption, nontou_check_eq_inOrder, tou_check_eq_inOrder, hchk, hb₂]
    rw [hu] at h
    cases h
  | true =>
    have hd : extract_consumption ver text = extract_consumption_tou ver text := by
      simp [extract_consumption, nontou_check_eq_inOrder, tou_check_eq_inOrder, hchk, hb₂]
    rw [hd] at h
    obtain ⟨b, m, rest, caps, m₁, v, qsum, hs, hc, hv, hsum, rfl⟩ := tou_branch_analysis h
    have hdrop : CONSUMPTION_TOU_BANDS.dropLast = ["尖", "峰", "平", "谷"] := rfl
    rw [hdrop] at hsum
    obtain ⟨v1, q1, qr1, hv1, hf1, hsum1, heq1⟩ := sumConsumption_cons hsum
    obtain ⟨v2, q2, qr2, hv2, hf2, hsum2, heq2⟩ := sumConsumption_cons hsum1
    obtain ⟨v3, q3, qr3, hv3, hf3, hsum3, heq3⟩ := sumConsumption_cons hsum2
    obtain ⟨v4, q4, qr4, hv4, hf4, hsum4, heq4⟩ := sumConsumption_cons hsum3
    have hz : qr4 = 0 := sumConsumption_nil hsum4
    have hband : ∀ (bd : String) (vb : PyVal) (qb : ℚ) (w : PyVal),
        bd ∈ CONSUMPTION_TOU_BANDS →
        dGet (dSet m₁ "表计资产编号" v) (bd ++ "合计电量") = some vb →
        pyFloatOf vb = Except.ok qb →
        dGet (dSet (dSet m₁ "表计资产编号" v) "有功总合计电量" w) (bd ++ "合计电量")
          = some (PyVal.float qb) := by
      intro bd vb qb w hbd hget hfl
      have hne : "表计资产编号" ≠ bd ++ "合计电量" := by
        fin_cases hbd <;> decide
      have hne₂ : "有功总合计电量" ≠ bd ++ "合计电量" := by
        fin_cases hbd <;> decide
      rw [dGet_dSet_ne _ _ hne] at hget
      obtain ⟨qb', rfl⟩ := tou_band_total_is_float hc hbd hget
      have hqq : qb' = qb := by
        simp only [pyFloatOf] at hfl
        injection hfl
      subst hqq
      rw [dGet_dSet_ne _ _ hne₂, dGet_dSet_ne _ _ hne]
      exact hget
    refine ⟨q1, q2, q3, q4,
      hband "尖" v1 q1 _ (by decide) hv1 hf1,
      hband "峰" v2 q2 _ (by decide) hv2 hf2,
      hband "平" v3 q3 _ (by decide) hv3 hf3,
      hband "谷" v4 q4 _ (by decide) hv4 hf4, ?_⟩
    rw [dGet_dSet_self]
    have harith : qsum = q1 + q2 + q3 + q4 := by
      rw [heq1, heq2, heq3, heq4, hz]
      ring
    rw [harith]

theorem C2_tou_total_synthesised_witness :
    ∃ q1 q2 q3 q4,
      dGet sampleTouRecord "尖合计电量" = some (PyVal.float q1) ∧
      dGet sampleTouRecord "峰合计电量" = some (PyVal.float q2) ∧
      dGet sampleTouRecord "平合计电量" = some (PyVal.float q3) ∧
      dGet sampleTouRecord "谷合计电量" = some (PyVal.float q4) ∧
      dGet sampleTouRecord "有功总合计电量" =
        some (PyVal.str (pyFloatRepr (q1 + q2 + q3 + q4))) :=
  C2_tou_total_synthesised true sampleTouText sampleTouRecord (by decide)
    sampleTou_extract_eq

/-- C10: `convert_type` leaves keys outside the table unchanged, removes
listed keys holding None, replaces every other listed key by the conversion
result; consequently a non-participating optional 尖峰调整电量 group is
absent from the returned time-differentiated record rather than mapped to
None. -/
theorem C10_convert_type_semantics (ver : Bool) :
    (∀ (tbl : List (String × Conv)) (m m' : PyDict) (k : String),
      convert_type ver m tbl = Except.ok m' → (∀ c, (k, c) ∉ tbl) →
      dGet m' k = dGet m k) ∧
    (∀ (tbl : List (String × Conv)) (m m' : PyDict) (k : String) (c : Conv),
      convert_type ver m tbl = Except.ok m' → (tbl.map Prod.fst).Nodup →
      (dKeys m).Nodup → (k, c) ∈ tbl → dGet m k = some PyVal.none →
      dGet m' k = Option.none) ∧
    (∀ (tbl : List (String × Conv)) (m m' : PyDict) (k : String) (c : Conv) (v : PyVal),
      convert_type ver m tbl = Except.ok m' → (tbl.map Prod.fst).Nodup →
      (k, c) ∈ tbl → dGet m k = some v → v ≠ PyVal.none →
      ∃ v', applyConv ver c v = Except.ok v' ∧ dGet m' k = some v') ∧
    (∀ (text : List Char) (r : PyDict) (b m rest : List Char) (caps : Caps),
      extract_consumption_tou ver text = Except.ok r →
      searchGo CONSUMPTION_TOU_PATTERN text = some (b, m, rest, caps) →
      capLookup "尖尖峰调整电量" caps = Option.none →
      dGet r "尖尖峰调整电量" = Option.none) := by
  refine ⟨convert_type_get_notin ver, convert_type_get_popped ver,
    convert_type_get_conv ver, ?_⟩
  intro text r b m rest caps h hs hcap
  obtain ⟨b', m', rest', caps', m₁, v, qsum, hs', hc, hv, hsum, rfl⟩ := tou_branch_analysis h
  rw [hs] at hs'
  simp only [Option.some.injEq, Prod.mk.injEq] at hs'
  obtain ⟨rfl, rfl, rfl, rfl⟩ := hs'
  have hgv : dGet (groupdict CONSUMPTION_TOU_PATTERN caps) "尖尖峰调整电量" =
      some PyVal.none := by
    rw [dGet_groupdict (by decide), hcap]
  have hpop := convert_type_get_popped ver CONSUMPTION_TOU_CONVERSIONS _ m₁
    "尖尖峰调整电量" Conv.toFloat hc (by decide)
    (by rw [dKeys_groupdict]; decide) (by decide) hgv
  rw [dGet_dSet_ne _ _ (by decide), dGet_dSet_ne _ _ (by decide)]
  exact hpop

theorem C10_convert_type_semantics_witness :
    dGet sampleTouRecord "尖尖峰调整电量" = Option.none :=
  (C10_convert_type_semantics true).2.2.2 sampleTouText sampleTouRecord
    sampleTouSearch.1 sampleTouSearch.2.1 sampleTouSearch.2.2.1 sampleTouSearch.2.2.2
    (by rfl) (by rfl) (by rfl)

/-- C8: a page that passes the classifier but whose extraction raises a
no-match or unknown-layout ValueError is logged with the source file name
and skipped: the record list is unchanged, and the driver continues with
the remaining pages. -/
theorem C8_page_errors_isolated (ver : Bool) (fileName : String) (text : List Char)
    (pages : List (List Char)) (st : List PyDict × List String) (e : PyErr)
    (hbill : check_is_bill text = true)
    (hext : extract ver text = Except.error e)
    (hkind : (∃ i, e = PyErr.noMatch i) ∨ e = PyErr.unknownCategory) :
    processPages ver fileName (text :: pages) st =
      processPages ver fileName pages (st.1, st.2 ++ [fileName ++ " " ++ e.message]) := by
  have hval : e.isValueError = true := by
    rcases hkind with ⟨i, rfl⟩ | rfl <;> rfl
  have hstep : processPage ver fileName text st =
      Except.ok (st.1, st.2 ++ [fileName ++ " " ++ e.message]) := by
    rw [processPage, hbill]
    simp only [Bool.not_true, Bool.false_eq_true, if_false]
    rw [hext]
    simp [hval]
  rw [processPages, hstep, except_bind_ok]

theorem C8_page_errors_isolated_witness :
    processPages true "bill.pdf" [sampleBillPageText] ([], []) =
      processPages true "bill.pdf" []
        ([], [] ++ ["bill.pdf" ++ " " ++ (PyErr.noMatch "基本信息").message]) :=
  C8_page_errors_isolated true "bill.pdf" sampleBillPageText [] ([], [])
    (PyErr.noMatch "基本信息") (by rfl) (by rfl) (Or.inl ⟨"基本信息", rfl⟩)

/-! ## Inversion of the basic-information pattern -/

lemma Mat_field_peel {lbl n : String} {rs : List Re} {p : List Char} {k k' : Caps}
    (h : Mat (rseq (rstr lbl :: optSp :: Re.grp n wplus :: dotStar :: rs)) p k k') :
    ∃ g w p', g ≠ [] ∧ (∀ c ∈ g, isWordChar c = true) ∧ p = lbl.data ++ w ++ p' ∧
      Mat (rseq rs) p' (capInsert n g k) k' := by
  have h0 : Mat (Re.cat (rstr lbl)
      (rseq (optSp :: Re.grp n wplus :: dotStar :: rs))) p k k' := h
  obtain ⟨p₁, p₂, k₁, rfl, h₁, hA⟩ := Mat_cat_inv h0
  obtain ⟨hp₁, hk₁⟩ := Mat_rstr_inv h₁
  subst hp₁
  rw [hk₁] at hA
  have hA0 : Mat (Re.cat optSp (rseq (Re.grp n wplus :: dotStar :: rs))) p₂ k k' := hA
  obtain ⟨p₃, p₄, k₂, rfl, h₂, hB⟩ := Mat_cat_inv hA0
  obtain ⟨_, hk₂⟩ := Mat_optSp_inv h₂
  rw [hk₂] at hB
  have hB0 : Mat (Re.cat (Re.grp n wplus) (rseq (dotStar :: rs))) p₄ k k' := hB
  obtain ⟨p₅, p₆, k₃, rfl, h₃, hC⟩ := Mat_cat_inv hB0
  obtain ⟨k₄, hplus, rfl⟩ := Mat_grp_inv h₃
  obtain ⟨hne, hall, hk₄⟩ := Mat_plus_inv hplus
  rw [hk₄] at hC
  have hC0 : Mat (Re.cat dotStar (rseq rs)) p₆ (capInsert n p₅ k) k' := hC
  obtain ⟨p₇, p₈, k₅, rfl, h₄, hD⟩ := Mat_cat_inv hC0
  have hk₅ := Mat_dotStar_inv h₄
  subst hk₅
  exact ⟨p₅, p₃ ++ p₅ ++ p₇, p₈, hne, hall, by simp, hD⟩

lemma Mat_field_last {lbl n : String} {p : List Char} {k k' : Caps}
    (h : Mat (rseq [rstr lbl, optSp, Re.grp n wplus]) p k k') :
    ∃ g w, g ≠ [] ∧ (∀ c ∈ g, isWordChar c = true) ∧ p = lbl.data ++ w ∧
      k' = capInsert n g k := by
  have h0 : Mat (Re.cat (rstr lbl) (rseq [optSp, Re.grp n wplus])) p k k' := h
  obtain ⟨p₁, p₂, k₁, rfl, h₁, hA⟩ := Mat_cat_inv h0
  obtain ⟨hp₁, hk₁⟩ := Mat_rstr_inv h₁
  subst hp₁
  rw [hk₁] at hA
  have hA0 : Mat (Re.cat optSp (rseq [Re.grp n wplus])) p₂ k k' := hA
  obtain ⟨p₃, p₄, k₂, rfl, h₂, hB⟩ := Mat_cat_inv hA0
  obtain ⟨_, hk₂⟩ := Mat_optSp_inv h₂
  rw [hk₂] at hB
  have hB0 : Mat (Re.cat (Re.grp n wplus) (rseq [])) p₄ k k' := hB
  obtain ⟨p₅, p₆, k₃, rfl, h₃, hC⟩ := Mat_cat_inv hB0
  obtain ⟨k₄, hplus, rfl⟩ := Mat_grp_inv h₃
  obtain ⟨hne, hall, hk₄⟩ := Mat_plus_inv hplus
  obtain ⟨rfl, hk'⟩ := Mat_eps_inv hC
  rw [hk', hk₄]
  exact ⟨p₅, p₃ ++ p₅, hne, hall, by simp, rfl⟩

lemma InOrderP_cons_of_split {l : String} {ls : List String} {p w p' : List Char}
    (hsplit : p = l.data ++ w ++ p') (h : InOrderP ls p') :
    InOrderP (l :: ls) p :=
  ⟨[], w ++ p', by simp [hsplit], InOrderP_extend_left w h⟩

/-- Full inversion of a basic-information match: the nine captures, the
word-character shape of each, and the ordered occurrence of the labels. -/
lemma info_pattern_inversion {p : List Char} {k' : Caps}
    (h : Mat INFORMATION_PATTERN p [] k') :
    (∃ g1 g2 g3 g4 g5 g6 g7 g8 g9 : List Char,
      k' = capInsert "用电结束时间" g9 (capInsert "用电开始时间" g8
        (capInsert "用电类别" g7 (capInsert "市场化属性分类" g6
        (capInsert "计量点编号" g5 (capInsert "结算户名" g4
        (capInsert "结算户号" g3 (capInsert "用户编号" g2
        (capInsert "用户" g1 [])))))))) ∧
      (g2 ≠ [] ∧ ∀ c ∈ g2, isWordChar c = true) ∧
      (g3 ≠ [] ∧ ∀ c ∈ g3, isWordChar c = true) ∧
      (g5 ≠ [] ∧ ∀ c ∈ g5, isWordChar c = true) ∧
      (g8 ≠ [] ∧ ∀ c ∈ g8, isWordChar c = true) ∧
      (g9 ≠ [] ∧ ∀ c ∈ g9, isWordChar c = true)) ∧
    InOrderP INFO_LABELS p := by
  have h0 : Mat (rseq
    [rstr "尊敬的：", optSp, Re.grp "用户" wplus, dotStar,
     rstr "用户编号：", optSp, Re.grp "用户编号" wplus, dotStar,
     rstr "结算户号：", optSp, Re.grp "结算户号" wplus, dotStar,
     rstr "结算户名：", optSp, Re.grp "结算户名" wplus, dotStar,
     rstr "计量点编号：", optSp, Re.grp "计量点编号" wplus, dotStar,
     rstr "市场化属性分类：", optSp, Re.grp "市场化属性分类" wplus, dotStar,
     rstr "用电类别：", optSp, Re.grp "用电类别" wplus, dotStar,
     rstr "用电开始时间：", optSp, Re.grp "用电开始时间" wplus, dotStar,
     rstr "用电结束时间：", optSp, Re.grp "用电结束时间" wplus]) p [] k' := h
  obtain ⟨g1, w1, p1, hne1, hall1, hs1, h0⟩ := Mat_field_peel h0
  obtain ⟨g2, w2, p2, hne2, hall2, hs2, h0⟩ := Mat_field_peel h0
  obtain ⟨g3, w3, p3, hne3, hall3, hs3, h0⟩ := Mat_field_peel h0
  obtain ⟨g4, w4, p4, hne4, hall4, hs4, h0⟩ := Mat_field_peel h0
  obtain ⟨g5, w5, p5, hne5, hall5, hs5, h0⟩ := Mat_field_peel h0
  obtain ⟨g6, w6, p6, hne6, hall6, hs6, h0⟩ := Mat_field_peel h0
  obtain ⟨g7, w7, p7, hne7, hall7, hs7, h0⟩ := Mat_field_peel h0
  obtain ⟨g8, w8, p8, hne8, hall8, hs8, h0⟩ := Mat_field_peel h0
  obtain ⟨g9, w9, hne9, hall9, hs9, hk⟩ := Mat_field_last h0
  refine ⟨⟨g1, g2, g3, g4, g5, g6, g7, g8, g9, hk, ⟨hne2, hall2⟩, ⟨hne3, hall3⟩,
    ⟨hne5, hall5⟩, ⟨hne8, hall8⟩, ⟨hne9, hall9⟩⟩, ?_⟩
  have i9 : InOrderP ["用电结束时间："] p8 := ⟨[], w9, by simp [hs9], trivial⟩
  have i8 : InOrderP ["用电开始时间：", "用电结束时间："] p7 :=
    InOrderP_cons_of_split hs8 i9
  have i7 : InOrderP ["用电类别：", "用电开始时间：", "用电结束时间："] p6 :=
    InOrderP_cons_of_split hs7 i8
  have i6 : InOrderP ["市场化属性分类：", "用电类别：", "用电开始时间：",
      "用电结束时间："] p5 :=
    InOrderP_cons_of_split hs6 i7
  have i5 : InOrderP ["计量点编号：", "市场化属性分类：", "用电类别：",
      "用电开始时间：", "用电结束时间："] p4 :=
    InOrderP_cons_of_split hs5 i6
  have i4 : InOrderP ["结算户名：", "计量点编号：", "市场化属性分类：",
      "用电类别：", "用电开始时间：", "用电结束时间："] p3 :=
    InOrderP_cons_of_split hs4 i5
  have i3 : InOrderP ["结算户号：", "结算户名：", "计量点编号：",
      "市场化属性分类：", "用电类别：", "用电开始时间：", "用电结束时间："] p2 :=
    InOrderP_cons_of_split hs3 i4
  have i2 : InOrderP ["用户编号：", "结算户号：", "结算户名：", "计量点编号：",
      "市场化属性分类：", "用电类别：", "用电开始时间：", "用电结束时间："] p1 :=
    InOrderP_cons_of_split hs2 i3
  exact InOrderP_cons_of_split hs1 i2

lemma addQuote_wordChars {g : List Char} (hne : g ≠ [])
    (hall : ∀ c ∈ g, isWordChar c = true) :
    str_add_single_quotation_mark (PyVal.str (String.mk g)) =
      PyVal.str (String.mk (quoteChar :: g)) := by
  cases g with
  | nil => exact absurd rfl hne
  | cons c g' =>
    have hw : isWordChar c = true := hall c (List.mem_cons_self _ _)
    have hcq : c ≠ quoteChar := by
      intro he
      rw [he] at hw
      exact absurd hw (by decide)
    simp only [str_add_single_quotation_mark]
    rw [if_neg (by simp [hcq])]

lemma mkDate_ok {y m d : ℕ} {v : PyVal} (h : mkDate y m d = Except.ok v) :
    v = PyVal.date y m d := by
  unfold mkDate at h
  split at h
  · injection h with h'; exact h'.symm
  · cases h

lemma fromisoformat_ok_shape {ver : Bool} {s : String} {v : PyVal}
    (h : fromisoformat ver s = Except.ok v) : ∃ y m d, v = PyVal.date y m d := by
  unfold fromisoformat at h
  split at h
  · split at h
    · exact ⟨_, _, _, mkDate_ok h⟩
    · cases h
  · split at h
    · exact ⟨_, _, _, mkDate_ok h⟩
    · cases h
  · cases h

lemma date_from_iso_format_str_shape {ver : Bool} {s : String} {v : PyVal}
    (h : date_from_iso_format ver (PyVal.str s) = Except.ok v) :
    ∃ y m d, v = PyVal.date y m d := by
  simp only [date_from_iso_format] at h
  split at h
  · split at h
    · exact ⟨_, _, _, mkDate_ok h⟩
    · cases h
  · exact fromisoformat_ok_shape h

lemma date_parse_eight {ver : Bool} {c1 c2 c3 c4 c5 c6 c7 c8 : Char}
    (hd : [c1, c2, c3, c4, c5, c6, c7, c8].all Char.isDigit = true) {y m d : ℕ}
    (hmk : mkDate (natValOfDigits [c1, c2, c3, c4]) (natValOfDigits [c5, c6])
      (natValOfDigits [c7, c8]) = Except.ok (PyVal.date y m d)) :
    date_from_iso_format ver (PyVal.str (String.mk [c1, c2, c3, c4, c5, c6, c7, c8])) =
      Except.ok (PyVal.date y m d) := by
  simp only [List.all_cons, List.all_nil, Bool.and_eq_true] at hd
  obtain ⟨h1, h2, h3, h4, h5, h6, h7, h8, -⟩ := hd
  cases ver with
  | false =>
    simp only [date_from_iso_format]
    rw [if_neg (by simp)]
    simp only [fromisoformat]
    rw [if_pos (by simp [h1, h2, h3, h4, h5, h6, h7, h8])]
    exact hmk
  | true =>
    simp only [date_from_iso_format]
    rw [if_pos (by simp)]
    have ht4 : ([c1, c2, c3, c4, c5, c6, c7, c8].take 4) = [c1, c2, c3, c4] := rfl
    have hd4 : (([c1, c2, c3, c4, c5, c6, c7, c8].drop 4).take 2) = [c5, c6] := rfl
    have hd6 : (([c1, c2, c3, c4, c5, c6, c7, c8].drop 6).take 2) = [c7, c8] := rfl
    rw [ht4, hd4, hd6]
    rw [show parseNatDigits [c1, c2, c3, c4] = some (natValOfDigits [c1, c2, c3, c4]) from
      by simp [parseNatDigits, h1, h2, h3, h4]]
    rw [show parseNatDigits [c5, c6] = some (natValOfDigits [c5, c6]) from
      by simp [parseNatDigits, h5, h6]]
    rw [show parseNatDigits [c7, c8] = some (natValOfDigits [c7, c8]) from
      by simp [parseNatDigits, h7, h8]]
    exact hmk

lemma date_parse_dashed {ver : Bool} {c1 c2 c3 c4 c5 c6 c7 c8 : Char}
    (hd : [c1, c2, c3, c4, c5, c6, c7, c8].all Char.isDigit = true) {y m d : ℕ}
    (hmk : mkDate (natValOfDigits [c1, c2, c3, c4]) (natValOfDigits [c5, c6])
      (natValOfDigits [c7, c8]) = Except.ok (PyVal.date y m d)) :
    date_from_iso_format ver
      (PyVal.str (String.mk [c1, c2, c3, c4, '-', c5, c6, '-', c7, c8])) =
      Except.ok (PyVal.date y m d) := by
  simp only [List.all_cons, List.all_nil, Bool.and_eq_true] at hd
  obtain ⟨h1, h2, h3, h4, h5, h6, h7, h8, -⟩ := hd
  have hfr : fromisoformat ver (String.mk [c1, c2, c3, c4, '-', c5, c6, '-', c7, c8]) =
      Except.ok (PyVal.date y m d) := by
    simp only [fromisoformat]
    rw [if_pos (by simp [h1, h2, h3, h4, h5, h6, h7, h8])]
    exact hmk
  simp only [date_from_iso_format]
  rw [if_neg (by simp)]
  exact hfr

/-- C4: on every successful basic-information extraction the three identifier
fields carry exactly one prepended single-quote character (the quote is added
by `str_add_single_quotation_mark` only when the value does not already start
with one, and a captured identifier never does, consisting of word
characters); the two period fields are date values produced by
`date_from_iso_format` from the captured strings, a parser accepting the
8-digit and the ISO-dashed calendar forms; and the extractor fails with the
基本信息 no-match ValueError when the labeled sequence is absent or out of
order. -/
theorem C4_information_extraction (ver : Bool) (text : List Char) :
    (∀ r : PyDict, extract_information ver text = Except.ok r →
      (∃ g, g ≠ [] ∧ (∀ c ∈ g, isWordChar c = true) ∧
        dGet r "用户编号" = some (PyVal.str (String.mk (quoteChar :: g)))) ∧
      (∃ g, g ≠ [] ∧ (∀ c ∈ g, isWordChar c = true) ∧
        dGet r "结算户号" = some (PyVal.str (String.mk (quoteChar :: g)))) ∧
      (∃ g, g ≠ [] ∧ (∀ c ∈ g, isWordChar c = true) ∧
        dGet r "计量点编号" = some (PyVal.str (String.mk (quoteChar :: g)))) ∧
      (∃ g y mo d, date_from_iso_format ver (PyVal.str (String.mk g)) =
          Except.ok (PyVal.date y mo d) ∧
        dGet r "用电开始时间" = some (PyVal.date y mo d)) ∧
      (∃ g y mo d, date_from_iso_format ver (PyVal.str (String.mk g)) =
          Except.ok (PyVal.date y mo d) ∧
        dGet r "用电结束时间" = some (PyVal.date y mo d))) ∧
    (isWordChar quoteChar = false) ∧
    (∀ s : String, s.data.head? = some quoteChar →
      str_add_single_quotation_mark (PyVal.str s) = PyVal.str s) ∧
    (searchGo INFORMATION_PATTERN text = Option.none →
      extract_information ver text = Except.error (PyErr.noMatch "基本信息")) ∧
    (inOrder INFO_LABELS text = false →
      extract_information ver text = Except.error (PyErr.noMatch "基本信息")) ∧
    (∀ c1 c2 c3 c4 c5 c6 c7 c8 : Char,
      [c1, c2, c3, c4, c5, c6, c7, c8].all Char.isDigit = true →
      ∀ y mo d : ℕ,
      mkDate (natValOfDigits [c1, c2, c3, c4]) (natValOfDigits [c5, c6])
        (natValOfDigits [c7, c8]) = Except.ok (PyVal.date y mo d) →
      date_from_iso_format ver
        (PyVal.str (String.mk [c1, c2, c3, c4, c5, c6, c7, c8])) =
        Except.ok (PyVal.date y mo d) ∧
      date_from_iso_format ver
        (PyVal.str (String.mk [c1, c2, c3, c4, '-', c5, c6, '-', c7, c8])) =
        Except.ok (PyVal.date y mo d)) := by
  have hnomatch : searchGo INFORMATION_PATTERN text = Option.none →
      extract_information ver text = Except.error (PyErr.noMatch "基本信息") := by
    intro hn
    rw [extract_information]
    have hsd : search_to_dict INFORMATION_PATTERN text "基本信息" =
        Except.error (PyErr.noMatch "基本信息") := by
      simp only [search_to_dict, hn]
    rw [hsd, except_bind_err]
  refine ⟨?_, by decide, ?_, hnomatch, ?_, ?_⟩
  · intro r h
    rw [extract_information] at h
    cases h₁ : search_to_dict INFORMATION_PATTERN text "基本信息" with
    | error e => rw [h₁, except_bind_err] at h; cases h
    | ok m₀ =>
      rw [h₁, except_bind_ok] at h
      obtain ⟨b, m, rest, caps, hs, hm₀⟩ := search_to_dict_ok h₁
      subst hm₀
      obtain ⟨_, hmm, _⟩ := searchGo_eq_some hs
      obtain ⟨q, hq, hmat, _⟩ := matchAt_sound hmm
      obtain ⟨⟨g1, g2, g3, g4, g5, g6, g7, g8, g9, hk, hg2, hg3, hg5, hg8, hg9⟩, _⟩ :=
        info_pattern_inversion hmat
      subst hk
      obtain ⟨v2', happ2, hget2⟩ := convert_type_get_conv ver INFORMATION_CONVERSIONS _ r
        "用户编号" Conv.addQuote (PyVal.str (String.mk g2)) h (by decide) (by decide)
        (by rw [dGet_groupdict (by decide)]; simp [capLookup_capInsert]) (by simp)
      obtain ⟨v3', happ3, hget3⟩ := convert_type_get_conv ver INFORMATION_CONVERSIONS _ r
        "结算户号" Conv.addQuote (PyVal.str (String.mk g3)) h (by decide) (by decide)
        (by rw [dGet_groupdict (by decide)]; simp [capLookup_capInsert]) (by simp)
      obtain ⟨v5', happ5, hget5⟩ := convert_type_get_conv ver INFORMATION_CONVERSIONS _ r
        "计量点编号" Conv.addQuote (PyVal.str (String.mk g5)) h (by decide) (by decide)
        (by rw [dGet_groupdict (by decide)]; simp [capLookup_capInsert]) (by simp)
      obtain ⟨v8', happ8, hget8⟩ := convert_type_get_conv ver INFORMATION_CONVERSIONS _ r
        "用电开始时间" Conv.toDate (PyVal.str (String.mk g8)) h (by decide) (by decide)
        (by rw [dGet_groupdict (by decide)]; simp [capLookup_capInsert]) (by simp)
      obtain ⟨v9', happ9, hget9⟩ := convert_type_get_conv ver INFORMATION_CONVERSIONS _ r
        "用电结束时间" Conv.toDate (PyVal.str (String.mk g9)) h (by decide) (by decide)
        (by rw [dGet_groupdict (by decide)]; simp [capLookup_capInsert]) (by simp)
      have hq2 : v2' = str_add_single_quotation_mark (PyVal.str (String.mk g2)) := by
        have : applyConv ver Conv.addQuote (PyVal.str (String.mk g2)) =
          Except.ok (str_add_single_quotation_mark (PyVal.str (String.mk g2))) := rfl
        rw [this] at happ2
        injection happ2 with h'
        exact h'.symm
      have hq3 : v3' = str_add_single_quotation_mark (PyVal.str (String.mk g3)) := by
        have : applyConv ver Conv.addQuote (PyVal.str (String.mk g3)) =
          Except.ok (str_add_single_quotation_mark (PyVal.str (String.mk g3))) := rfl
        rw [this] at happ3
        injection happ3 with h'
        exact h'.symm
      have hq5 : v5' = str_add_single_quotation_mark (PyVal.str (String.mk g5)) := by
        have : applyConv ver Conv.addQuote (PyVal.str (String.mk g5)) =
          Except.ok (str_add_single_quotation_mark (PyVal.str (String.mk g5))) := rfl
        rw [this] at happ5
        injection happ5 with h'
        exact h'.symm
      have hd8 : date_from_iso_format ver (PyVal.str (String.mk g8)) = Except.ok v8' :=
        happ8
      have hd9 : date_from_iso_format ver (PyVal.str (String.mk g9)) = Except.ok v9' :=
        happ9
      obtain ⟨y8, mo8, d8, rfl⟩ := date_from_iso_format_str_shape hd8
      obtain ⟨y9, mo9, d9, rfl⟩ := date_from_iso_format_str_shape hd9
      refine ⟨⟨g2, hg2.1, hg2.2, ?_⟩, ⟨g3, hg3.1, hg3.2, ?_⟩, ⟨g5, hg5.1, hg5.2, ?_⟩,
        ⟨g8, y8, mo8, d8, hd8, hget8⟩, ⟨g9, y9, mo9, d9, hd9, hget9⟩⟩
      · rw [hget2, hq2, addQuote_wordChars hg2.1 hg2.2]
      · rw [hget3, hq3, addQuote_wordChars hg3.1 hg3.2]
      · rw [hget5, hq5, addQuote_wordChars hg5.1 hg5.2]
  · intro s hhead
    simp only [str_add_single_quotation_mark]
    rw [if_pos hhead]
  · intro hio
    apply hnomatch
    cases hsg : searchGo INFORMATION_PATTERN text with
    | none => rfl
    | some x =>
      exfalso
      obtain ⟨b, m, rest, caps⟩ := x
      obtain ⟨hd, hmm, _⟩ := searchGo_eq_some hsg
      obtain ⟨q, hq, hmat, _⟩ := matchAt_sound hmm
      have hmq : m = q := (List.append_inj' hq rfl).1
      subst hmq
      have hio' := (info_pattern_inversion hmat).2
      have hord : InOrderP INFO_LABELS text := by
        rw [hd, List.append_assoc]
        exact InOrderP_extend_left b (InOrderP_extend_right rest hio')
      rw [inOrder_complete hord] at hio
      exact Bool.noConfusion hio
  · intro c1 c2 c3 c4 c5 c6 c7 c8 hdall y mo d hmk
    exact ⟨date_parse_eight hdall hmk, date_parse_dashed hdall hmk⟩

theorem C4_information_extraction_witness :
    (∃ g, g ≠ [] ∧ (∀ c ∈ g, isWordChar c = true) ∧
      dGet sampleInfoRecord "用户编号" = some (PyVal.str (String.mk (quoteChar :: g)))) ∧
    (∃ g y mo d, date_from_iso_format true (PyVal.str (String.mk g)) =
        Except.ok (PyVal.date y mo d) ∧
      dGet sampleInfoRecord "用电开始时间" = some (PyVal.date y mo d)) := by
  have hok : extract_information true sampleInfoText = Except.ok sampleInfoRecord := rfl
  have happ := (C4_information_extraction true sampleInfoText).1 sampleInfoRecord hok
  exact ⟨happ.1, happ.2.2.2.1⟩

/-! ## The whitespace normaliser: rule 1 -/

lemma searchGo_eq_none {p : Re} : ∀ {s : List Char}, searchGo p s = Option.none →
    ∀ pre suf, s = pre ++ suf → matchAt p suf = Option.none := by
  intro s
  induction s with
  | nil =>
    intro h pre suf hs
    obtain ⟨rfl, rfl⟩ := List.append_eq_nil.mp hs.symm
    rw [searchGo] at h
    cases hm : matchAt p [] with
    | some x => obtain ⟨rest, k⟩ := x; rw [hm] at h; cases h
    | none => rfl
  | cons c s' ih =>
    intro h pre suf hs
    rw [searchGo] at h
    cases hm : matchAt p (c :: s') with
    | some x => obtain ⟨rest, k⟩ := x; rw [hm] at h; cases h
    | none =>
      rw [hm] at h
      cases hg : searchGo p s' with
      | some x => obtain ⟨b, m, r, k⟩ := x; rw [hg] at h; cases h
      | none =>
        cases pre with
        | nil =>
          rw [List.nil_append] at hs
          rw [← hs]
          exact hm
        | cons c₀ pre' =>
          injection hs with h1 h2
          exact ih hg pre' suf h2

lemma noDbl_split {x y : List Char} (h : noDbl (x ++ y)) : noDbl x ∧ noDbl y := by
  rw [noDbl, List.chain'_append] at h
  exact ⟨h.1, h.2.1⟩

lemma noDbl_append {x y : List Char} (hx : noDbl x) (hy : noDbl y)
    (hj : ∀ a ∈ x.getLast?, ∀ b ∈ y.head?, ¬(a = ' ' ∧ b = ' ')) : noDbl (x ++ y) :=
  List.chain'_append.mpr ⟨hx, hy, hj⟩

lemma noDbl_all_nonspace : ∀ {l : List Char}, (∀ c ∈ l, c ≠ ' ') → noDbl l := by
  intro l
  induction l with
  | nil => intro _; exact List.chain'_nil
  | cons c l ih =>
    intro h
    rw [noDbl, List.chain'_cons']
    refine ⟨?_, ih (fun d hd => h d (List.mem_cons_of_mem _ hd))⟩
    intro y _ hc
    exact h c (List.mem_cons_self _ _) hc.1

lemma Mat_ws1_inv {p : List Char} {k k' : Caps} (h : Mat WS_PATTERN_1 p k k') :
    ∃ t, p = ' ' :: ' ' :: t ∧ (∀ c ∈ p, c = ' ') ∧ k' = k := by
  have h0 : Mat (Re.cat (Re.lit ' ')
    (rseq [Re.lit ' ', Re.star CC.sp])) p k k' := h
  obtain ⟨p₁, p₂, k₁, rfl, h₁, hA⟩ := Mat_cat_inv h0
  obtain ⟨rfl, hk₁⟩ := Mat_lit_inv h₁
  rw [hk₁] at hA
  have hA0 : Mat (Re.cat (Re.lit ' ') (rseq [Re.star CC.sp])) p₂ k k' := hA
  obtain ⟨p₃, p₄, k₂, rfl, h₂, hB⟩ := Mat_cat_inv hA0
  obtain ⟨rfl, hk₂⟩ := Mat_lit_inv h₂
  rw [hk₂] at hB
  have hB0 : Mat (Re.cat (Re.star CC.sp) Re.eps) p₄ k k' := hB
  obtain ⟨p₅, p₆, k₃, rfl, h₃, hC⟩ := Mat_cat_inv hB0
  obtain ⟨hk₃, hall⟩ := Mat_star_forall h₃
  obtain ⟨rfl, hk'⟩ := Mat_eps_inv hC
  subst hk₃
  refine ⟨p₅ ++ [], rfl, ?_, hk'⟩
  intro c hc
  rcases List.mem_cons.mp hc with rfl | hc'
  · rfl
  rcases List.mem_cons.mp hc' with rfl | hc''
  · rfl
  · have := hall c (by simpa using hc'')
    simpa [ccMatch] using this

lemma Mat_ws1_pair (k : Caps) : Mat WS_PATTERN_1 [' ', ' '] k k := by
  have h := Mat.cat (@Mat.lit ' ' k)
    (Mat.cat (@Mat.lit ' ' k)
      (Mat.cat (@Mat.star_nil CC.sp k) Mat.eps))
  simpa using h

lemma firstSome_const_some {α β : Type} {g : α → β} : ∀ {l : List α} {v : β},
    firstSome (fun a => some (g a)) l = some v → ∃ a l', l = a :: l' ∧ v = g a := by
  intro l v h
  cases l with
  | nil => cases h
  | cons a l' =>
    rw [firstSome] at h
    injection h with h'
    exact ⟨a, l', rfl, h'.symm⟩

lemma mstar_head_spec (cc : CC) : ∀ (s : List Char), ∃ t l', mstar cc s = t :: l' ∧
    ∀ d, t.head? = some d → ccMatch cc d = false := by
  intro s
  induction s with
  | nil => exact ⟨[], [], rfl, by simp⟩
  | cons c s' ih =>
    by_cases hc : ccMatch cc c = true
    · obtain ⟨t, l', heq, hh⟩ := ih
      refine ⟨t, l' ++ [c :: s'], ?_, hh⟩
      rw [mstar, if_pos hc, heq]
      rfl
    · refine ⟨c :: s', [], ?_, ?_⟩
      · rw [mstar, if_neg hc]
        rfl
      · intro d hd
        injection hd with h'
        subst h'
        exact Bool.not_eq_true _ ▸ (Bool.eq_false_iff.mpr hc)

/-- The greedy star in rule 1 consumes the whole space run: the remainder
never starts with a space. -/
lemma matchAt_ws1_rest : ∀ {s rest : List Char} {k : Caps},
    matchAt WS_PATTERN_1 s = some (rest, k) → rest.head? ≠ some ' ' := by
  intro s rest k h hsp
  have hP : WS_PATTERN_1 = Re.cat (Re.lit ' ')
      (Re.cat (Re.lit ' ') (Re.cat (Re.star CC.sp) Re.eps)) := rfl
  rw [matchAt, hP] at h
  cases s with
  | nil => simp [mre] at h
  | cons c₁ s₁ =>
    by_cases hc₁ : c₁ = ' '
    · subst hc₁
      rw [show mre (Re.cat (Re.lit ' ') (Re.cat (Re.lit ' ')
          (Re.cat (Re.star CC.sp) Re.eps))) (' ' :: s₁) ([] : Caps)
          (fun t k => some (t, k)) =
        mre (Re.cat (Re.lit ' ') (Re.cat (Re.star CC.sp) Re.eps)) s₁ ([] : Caps)
          (fun t k => some (t, k)) from by rw [mre, mre, if_pos rfl]] at h
      cases s₁ with
      | nil => simp [mre] at h
      | cons c₂ s₂ =>
        by_cases hc₂ : c₂ = ' '
        · subst hc₂
          rw [show mre (Re.cat (Re.lit ' ') (Re.cat (Re.star CC.sp) Re.eps))
              (' ' :: s₂) ([] : Caps) (fun t k => some (t, k)) =
            firstSome (fun t => some (t, ([] : Caps))) (mstar CC.sp s₂) from by
              rw [mre, mre, if_pos rfl]; rfl] at h
          obtain ⟨t, l', heq, hv⟩ := firstSome_const_some h
          have ht : t = rest := by
            injection hv with h1 h2
            exact h1.symm
          obtain ⟨t₀, l₀', heq₀, hh₀⟩ := mstar_head_spec CC.sp s₂
          rw [heq₀] at heq
          injection heq with he1 he2
          subst he1
          rw [ht] at hh₀
          have := hh₀ ' ' hsp
          simp [ccMatch] at this
        · rw [show mre (Re.cat (Re.lit ' ') (Re.cat (Re.star CC.sp) Re.eps))
              (c₂ :: s₂) ([] : Caps) (fun t k => some (t, k)) = Option.none from by
              rw [mre, mre, if_neg hc₂]] at h
          cases h
    · rw [show mre (Re.cat (Re.lit ' ') (Re.cat (Re.lit ' ')
          (Re.cat (Re.star CC.sp) Re.eps))) (c₁ :: s₁) ([] : Caps)
          (fun t k => some (t, k)) = Option.none from by
            rw [mre, mre, if_neg hc₁]] at h
      cases h

lemma getLast_concat_decomp : ∀ {l : List Char} {a : Char},
    l.getLast? = some a → ∃ l', l = l' ++ [a] := by
  intro l
  induction l with
  | nil => intro a h; cases h
  | cons c l ih =>
    intro a h
    cases l with
    | nil =>
      refine ⟨[], ?_⟩
      simp [List.getLast?] at h
      simp [h]
    | cons d l' =>
      rw [List.getLast?_cons_cons] at h
      obtain ⟨l'', hl⟩ := ih h
      exact ⟨c :: l'', by rw [hl]; rfl⟩

lemma noDbl_of_no_ws1_match : ∀ (b : List Char), ∀ (tail : List Char),
    (∀ b₁ b₂, b = b₁ ++ b₂ → b₂ ≠ [] →
      matchAt WS_PATTERN_1 (b₂ ++ tail) = Option.none) →
    noDbl b := by
  intro b
  induction b with
  | nil => intro tail _; exact List.chain'_nil
  | cons c b' ih =>
    intro tail hno
    simp only [noDbl]
    rw [List.chain'_cons']
    constructor
    · intro y hy hcy
      obtain ⟨rfl, rfl⟩ := hcy
      obtain ⟨b'', rfl⟩ : ∃ b'', b' = ' ' :: b'' := by
        cases b' with
        | nil => exact Option.noConfusion hy
        | cons d b'' =>
          have hd : d = ' ' := by injection hy
          exact ⟨b'', by rw [hd]⟩
      have hmat := matchAt_complete (Mat_ws1_pair []) (b'' ++ tail)
      have hn := hno [] (' ' :: ' ' :: b'') rfl (by simp)
      exact hmat hn
    · apply ih tail
      intro b₁ b₂ hb hne
      exact hno (c :: b₁) b₂ (by simp [hb]) hne

/-- After one full pass of rule 1, the output has no two adjacent spaces, and
an output starting with a space means the input started with a space. -/
lemma reSub_ws1_spec : ∀ (fuel : Nat) (s : List Char), s.length < fuel →
    noDbl (reSub WS_PATTERN_1 ws_repl_1 fuel s) ∧
    ((reSub WS_PATTERN_1 ws_repl_1 fuel s).head? = some ' ' → s.head? = some ' ') := by
  intro fuel
  induction fuel with
  | zero => intro s hs; exact absurd hs (Nat.not_lt_zero _)
  | succ fuel ih =>
    intro s hs
    cases hsg : searchGo WS_PATTERN_1 s with
    | none =>
      simp only [reSub, hsg]
      refine ⟨?_, fun h => h⟩
      exact noDbl_of_no_ws1_match s [] (fun b₁ b₂ hb hne => by
        simpa using searchGo_eq_none hsg b₁ b₂ hb)
    | some x =>
      obtain ⟨b, m, r, k⟩ := x
      obtain ⟨hd, hmm, hnone⟩ := searchGo_eq_some hsg
      obtain ⟨q, hq, hmat, hco⟩ := matchAt_sound hmm
      have hmq : m = q := (List.append_inj' hq rfl).1
      subst hmq
      obtain ⟨t, hm2, hallsp, hk⟩ := Mat_ws1_inv hmat
      subst hm2
      have hrl : r.length < fuel := by
        have hlen := congrArg List.length hd
        simp only [List.length_append, List.length_cons] at hlen
        omega
      obtain ⟨ihn, ihh⟩ := ih r hrl
      have hrh : r.head? ≠ some ' ' := matchAt_ws1_rest hmm
      have houth : (reSub WS_PATTERN_1 ws_repl_1 fuel r).head? ≠ some ' ' :=
        fun h => hrh (ihh h)
      have hbn : noDbl b := noDbl_of_no_ws1_match b ((' ' :: ' ' :: t) ++ r)
        (fun b₁ b₂ hb hne => by
          have := hnone b₁ b₂ hb hne
          simpa [List.append_assoc] using this)
      have hbl : ∀ a ∈ b.getLast?, a ≠ ' ' := by
        intro a ha hasp
        subst hasp
        obtain ⟨b₁, rfl⟩ := getLast_concat_decomp ha
        have hn := hnone b₁ [' '] rfl (by simp)
        exact matchAt_complete (Mat_ws1_pair []) (' ' :: (t ++ r))
          (by simpa using hn)
      simp only [reSub, hsg, List.isEmpty_cons, Bool.false_eq_true, if_false, ws_repl_1]
      constructor
      · rw [List.append_assoc]
        refine noDbl_append hbn ?_ ?_
        · show noDbl (' ' :: reSub WS_PATTERN_1 ws_repl_1 fuel r)
          simp only [noDbl]
          rw [List.chain'_cons']
          refine ⟨?_, ihn⟩
          intro y hy hcy
          exact houth (hcy.2 ▸ hy)
        · intro a ha y hy hcy
          exact hbl a ha hcy.1
      · intro hh
        cases b with
        | nil => simp [hd]
        | cons c b' =>
          have hc : c = ' ' := by
            simp only [List.cons_append, List.head?_cons] at hh
            exact Option.some.inj hh
          rw [hd, hc]
          rfl

lemma reSub_filter_pres {p : Re} {repl : Caps → List Char} (P : Char → Bool)
    (hmatch : ∀ q k', Mat p q [] k' → (repl k').filter P = q.filter P) :
    ∀ (fuel : Nat) (s : List Char),
      (reSub p repl fuel s).filter P = s.filter P := by
  intro fuel
  induction fuel with
  | zero => intro s; rfl
  | succ fuel ih =>
    intro s
    cases hsg : searchGo p s with
    | none => simp only [reSub, hsg]
    | some x =>
      obtain ⟨b, m, r, k⟩ := x
      obtain ⟨hd, hmm, _⟩ := searchGo_eq_some hsg
      obtain ⟨q, hq, hmat, _⟩ := matchAt_sound hmm
      have hmq : m = q := (List.append_inj' hq rfl).1
      subst hmq
      have hrepl := hmatch m k hmat
      by_cases hm : m.isEmpty = true
      · have hm0 : m = [] := List.isEmpty_iff.mp hm
        subst hm0
        simp only [reSub, hsg]
        rw [if_pos hm]
        cases r with
        | nil =>
          rw [hd]
          simp [List.filter_append]
          simpa using hrepl
        | cons c r' =>
          rw [hd]
          simp only [List.filter_append, List.filter_cons, List.nil_append]
          have hrepl' : (repl k).filter P = [] := by simpa using hrepl
          rw [hrepl']
          cases hPc : P c <;> simp [ih r']
      · simp only [reSub, hsg]
        rw [if_neg hm]
        rw [hd]
        simp [List.filter_append, hrepl, ih r]

/-! ## The whitespace normaliser: rule 2 -/

lemma ccMatch_digit_not_blank {c : Char} (h : ccMatch CC.digit c = true) :
    c ≠ ' ' ∧ c ≠ '\n' := by
  constructor <;> intro he <;> subst he <;> exact absurd h (by decide)

lemma ccMatch_slashWord_not_blank {c : Char} (h : ccMatch CC.slashWord c = true) :
    c ≠ ' ' ∧ c ≠ '\n' := by
  constructor <;> intro he <;> subst he <;> exact absurd h (by decide)

lemma Mat_parenCls_inv {cc : CC} {p : List Char} {k k' : Caps}
    (h : Mat (rseq [Re.lit '(', rplus cc, Re.lit ')']) p k k') :
    p ≠ [] ∧ (∀ c ∈ p, ccMatch cc c = true ∨ c = '(' ∨ c = ')') ∧ k' = k := by
  have h0 : Mat (Re.cat (Re.lit '(')
      (Re.cat (rplus cc) (Re.cat (Re.lit ')') Re.eps))) p k k' := h
  obtain ⟨p₁, p₂, k₁, rfl, h₁, hA⟩ := Mat_cat_inv h0
  obtain ⟨rfl, hk₁⟩ := Mat_lit_inv h₁
  subst hk₁
  obtain ⟨p₃, p₄, k₂, rfl, h₂, hB⟩ := Mat_cat_inv hA
  obtain ⟨hne, hall, hk₂⟩ := Mat_plus_inv h₂
  subst hk₂
  obtain ⟨p₅, p₆, k₃, rfl, h₃, hC⟩ := Mat_cat_inv hB
  obtain ⟨rfl, hk₃⟩ := Mat_lit_inv h₃
  subst hk₃
  obtain ⟨rfl, hk'⟩ := Mat_eps_inv hC
  refine ⟨by simp, ?_, hk'⟩
  intro c hc
  rcases List.mem_append.mp hc with h1 | h23
  · rcases List.mem_cons.mp h1 with rfl | h0
    · exact Or.inr (Or.inl rfl)
    · exact absurd h0 (List.not_mem_nil c)
  · rcases List.mem_append.mp h23 with h2 | h3
    · exact Or.inl (hall c h2)
    · rcases List.mem_append.mp h3 with h4 | h5
      · rcases List.mem_cons.mp h4 with rfl | h0
        · exact Or.inr (Or.inr rfl)
        · exact absurd h0 (List.not_mem_nil c)
      · exact absurd h5 (List.not_mem_nil c)

lemma Mat_optGrpParen_inv {n : String} {cc : CC} {p : List Char} {k k' : Caps}
    (h : Mat (Re.opt (Re.grp n (rseq [Re.lit '(', rplus cc, Re.lit ')']))) p k k') :
    (∀ c ∈ p, ccMatch cc c = true ∨ c = '(' ∨ c = ')') ∧
      (k' = capInsert n p k ∨ (p = [] ∧ k' = k)) := by
  rcases Mat_opt_inv h with h' | ⟨rfl, rfl⟩
  · obtain ⟨k₁, hin, hk'⟩ := Mat_grp_inv h'
    obtain ⟨hne, hall, hk₁⟩ := Mat_parenCls_inv hin
    subst hk₁
    exact ⟨hall, Or.inl hk'⟩
  · exact ⟨by simp, Or.inr ⟨rfl, rfl⟩⟩

lemma Mat_grp4_inv {p : List Char} {k k' : Caps}
    (h : Mat (Re.grp "4" (Re.alt (rseq [Re.lit '(', rplus CC.slashWord, Re.lit ')'])
        (rstr "电量"))) p k k') :
    p ≠ [] ∧ (∀ c ∈ p, c ≠ ' ' ∧ c ≠ '\n') ∧ k' = capInsert "4" p k := by
  obtain ⟨k₁, hin, hk'⟩ := Mat_grp_inv h
  rcases Mat_alt_inv hin with h1 | h2
  · obtain ⟨hne, hall, hk₁⟩ := Mat_parenCls_inv h1
    subst hk₁
    refine ⟨hne, ?_, hk'⟩
    intro c hc
    rcases hall c hc with hcc | rfl | rfl
    · exact ccMatch_slashWord_not_blank hcc
    · exact ⟨by decide, by decide⟩
    · exact ⟨by decide, by decide⟩
  · obtain ⟨rfl, hk₁⟩ := Mat_rstr_inv h2
    subst hk₁
    refine ⟨by decide, ?_, hk'⟩
    intro c hc
    rw [show ("电量".data : List Char) = ['电', '量'] from rfl] at hc
    rcases List.mem_cons.mp hc with rfl | hc'
    · exact ⟨by decide, by decide⟩
    rcases List.mem_cons.mp hc' with rfl | hc''
    · exact ⟨by decide, by decide⟩
    · exact absurd hc'' (List.not_mem_nil c)

/-- Full inversion of the second whitespace rule: what a match consists of,
what the replacement rebuilds, and that a match not starting with a space can
absorb one more leading space. -/
lemma Mat_ws2_inv {p : List Char} {k' : Caps} (h : Mat WS_PATTERN_2 p [] k') :
    ∃ sp1 g1 g2 g3 sp2 g4,
      p = sp1 ++ g1 ++ g2 ++ g3 ++ '\n' :: (sp2 ++ g4) ∧
      (sp1 = [] ∨ sp1 = [' ']) ∧ (sp2 = [] ∨ sp2 = [' ']) ∧ g2 ≠ [] ∧
      (∀ c ∈ g1 ++ g2 ++ g3 ++ g4, c ≠ ' ' ∧ c ≠ '\n') ∧
      ws_repl_2 k' = ' ' :: (g1 ++ g2 ++ g3 ++ g4) ∧
      (sp1 = [] → ∃ k'', Mat WS_PATTERN_2 (' ' :: p) [] k'') := by
  have h0 : Mat (Re.cat optSp (Re.cat
      (Re.opt (Re.grp "1" (rseq [Re.lit '(', rplus CC.digit, Re.lit ')'])))
      (Re.cat (Re.grp "2" (rplus CC.slashWord))
      (Re.cat (Re.opt (Re.grp "3" (rseq [Re.lit '(', rplus CC.slashWord, Re.lit ')'])))
      (Re.cat (Re.lit '\n')
      (Re.cat optSp
      (Re.cat (Re.grp "4" (Re.alt (rseq [Re.lit '(', rplus CC.slashWord, Re.lit ')'])
                                  (rstr "电量"))) Re.eps))))))) p [] k' := h
  obtain ⟨sp1, p₁, k₁, rfl, hsp1m, hA⟩ := Mat_cat_inv h0
  obtain ⟨hsp1, hk₁⟩ := Mat_optSp_inv hsp1m
  subst hk₁
  obtain ⟨g1, p₂, k₂, rfl, hg1m, hB⟩ := Mat_cat_inv hA
  obtain ⟨hg1chars, hk₂⟩ := Mat_optGrpParen_inv hg1m
  obtain ⟨g2, p₃, k₄, rfl, hg2m, hC⟩ := Mat_cat_inv hB
  obtain ⟨k₅, hplus2, hk₄⟩ := Mat_grp_inv hg2m
  obtain ⟨hg2ne, hg2chars, hk₅⟩ := Mat_plus_inv hplus2
  subst hk₅
  obtain ⟨g3, p₄, k₆, rfl, hg3m, hD⟩ := Mat_cat_inv hC
  obtain ⟨hg3chars, hk₆⟩ := Mat_optGrpParen_inv hg3m
  obtain ⟨pn, p₅, k₇, rfl, hnl, hE⟩ := Mat_cat_inv hD
  obtain ⟨rfl, hk₇⟩ := Mat_lit_inv hnl
  subst hk₇
  obtain ⟨sp2, p₆, k₈, rfl, hsp2m, hF⟩ := Mat_cat_inv hE
  obtain ⟨hsp2, hk₈⟩ := Mat_optSp_inv hsp2m
  subst hk₈
  obtain ⟨g4, p₇, k₉, rfl, hg4m, hG⟩ := Mat_cat_inv hF
  obtain ⟨hg4ne, hg4chars, hk₉⟩ := Mat_grp4_inv hg4m
  obtain ⟨rfl, hk'⟩ := Mat_eps_inv hG
  refine ⟨sp1, g1, g2, g3, sp2, g4, ?_, hsp1, hsp2, hg2ne, ?_, ?_, ?_⟩
  · simp [List.append_assoc]
  · intro c hc
    simp only [List.append_assoc, List.mem_append] at hc
    rcases hc with hc | hc | hc | hc
    · rcases hg1chars c hc with hcc | rfl | rfl
      · exact ccMatch_digit_not_blank hcc
      · exact ⟨by decide, by decide⟩
      · exact ⟨by decide, by decide⟩
    · exact ccMatch_slashWord_not_blank (hg2chars c hc)
    · rcases hg3chars c hc with hcc | rfl | rfl
      · exact ccMatch_slashWord_not_blank hcc
      · exact ⟨by decide, by decide⟩
      · exact ⟨by decide, by decide⟩
    · exact hg4chars c hc
  · subst hk'
    subst hk₉
    subst hk₄
    rcases hk₂ with hk₂ | ⟨rfl, hk₂⟩
    · subst hk₂
      rcases hk₆ with hk₆ | ⟨rfl, hk₆⟩
      · subst hk₆
        rfl
      · subst hk₆
        rfl
    · subst hk₂
      rcases hk₆ with hk₆ | ⟨rfl, hk₆⟩
      · subst hk₆
        rfl
      · subst hk₆
        rfl
  · intro hsp1nil
    subst hsp1nil
    have hm : Mat WS_PATTERN_2
        (([' '] : List Char) ++ (g1 ++ (g2 ++ (g3 ++ (['\n'] ++ (sp2 ++ (g4 ++ []))))))) [] k' :=
      Mat.cat (Mat.opt_some Mat.lit) hA
    exact ⟨k', by simpa using hm⟩

/-- Rule 2 preserves the no-adjacent-spaces property: every replacement
starts with one space followed by non-space characters, and leftmost matching
plus the optional leading-space branch rule out a space just before a match. -/
lemma reSub_ws2_noDbl : ∀ (fuel : Nat) (s : List Char), s.length < fuel → noDbl s →
    noDbl (reSub WS_PATTERN_2 ws_repl_2 fuel s) := by
  intro fuel
  induction fuel with
  | zero => intro s hs _; exact absurd hs (Nat.not_lt_zero _)
  | succ fuel ih =>
    intro s hs hnd
    cases hsg : searchGo WS_PATTERN_2 s with
    | none =>
      simp only [reSub, hsg]
      exact hnd
    | some x =>
      obtain ⟨b, m, r, k⟩ := x
      obtain ⟨hd, hmm, hnone⟩ := searchGo_eq_some hsg
      obtain ⟨q, hq, hmat, hco⟩ := matchAt_sound hmm
      have hmq : m = q := (List.append_inj' hq rfl).1
      subst hmq
      obtain ⟨sp1, g1, g2, g3, sp2, g4, hm2, hsp1, hsp2, hg2ne, hchars, hrepl, hpre⟩ :=
        Mat_ws2_inv hmat
      have hnlm : '\n' ∈ m := by rw [hm2]; simp
      have hmne : m ≠ [] := List.ne_nil_of_mem hnlm
      have hmE : m.isEmpty = false := by
        cases hme : m.isEmpty with
        | false => rfl
        | true => exact absurd (List.isEmpty_iff.mp hme) hmne
      rw [hd] at hnd
      obtain ⟨hndbm, hndr⟩ := noDbl_split hnd
      obtain ⟨hndb, hndm⟩ := noDbl_split hndbm
      have hrl : r.length < fuel := by
        have hlen := congrArg List.length hd
        simp only [List.length_append] at hlen
        have hmp : 0 < m.length := List.length_pos.mpr hmne
        omega
      have hout' := ih r hrl hndr
      have hgsne : g1 ++ g2 ++ g3 ++ g4 ≠ [] := by
        intro he
        simp only [List.append_eq_nil] at he
        exact hg2ne he.1.1.2
      simp only [reSub, hsg, hmE, Bool.false_eq_true, if_false]
      rw [hrepl, List.append_assoc, List.cons_append]
      refine noDbl_append hndb ?_ ?_
      · show noDbl (' ' :: ((g1 ++ g2 ++ g3 ++ g4) ++ reSub WS_PATTERN_2 ws_repl_2 fuel r))
        refine List.chain'_cons'.mpr ⟨?_, ?_⟩
        · intro y hy hcy
          cases hgs : g1 ++ g2 ++ g3 ++ g4 with
          | nil => exact hgsne hgs
          | cons c gs' =>
            rw [hgs, List.cons_append, List.head?_cons] at hy
            have hcm : c ∈ g1 ++ g2 ++ g3 ++ g4 := by
              rw [hgs]
              exact List.mem_cons_self _ _
            exact (hchars c hcm).1 (by rw [Option.some.inj hy, hcy.2])
        · refine noDbl_append (noDbl_all_nonspace (fun c hc => (hchars c hc).1)) hout' ?_
          intro a ha y hy hcy
          obtain ⟨l', hl⟩ := getLast_concat_decomp ha
          have ham : a ∈ g1 ++ g2 ++ g3 ++ g4 := by rw [hl]; simp
          exact (hchars a ham).1 hcy.1
      · intro a ha y hy hcy
        have hasp : a = ' ' := hcy.1
        subst hasp
        obtain ⟨b₁, rfl⟩ := getLast_concat_decomp ha
        rcases hsp1 with hsp1nil | hsp1sp
        · obtain ⟨k'', hm'⟩ := hpre hsp1nil
          have hn := hnone b₁ [' '] rfl (by simp)
          exact matchAt_complete hm' r (by simpa using hn)
        · have hj := (List.chain'_append.mp hndbm).2.2
          refine hj ' ' ?_ ' ' ?_ ⟨rfl, rfl⟩
          · show (b₁ ++ [' ']).getLast? = some ' '
            exact List.getLast?_concat _
          · show m.head? = some ' '
            rw [hm2, hsp1sp]
            rfl

lemma filter_all_true {P : Char → Bool} : ∀ {l : List Char},
    (∀ c ∈ l, P c = true) → l.filter P = l := by
  intro l
  induction l with
  | nil => intro _; rfl
  | cons c l ih =>
    intro h
    rw [List.filter_cons, if_pos (h c (List.mem_cons_self _ _)),
      ih (fun d hd => h d (List.mem_cons_of_mem _ hd))]

lemma filter_all_false {P : Char → Bool} : ∀ {l : List Char},
    (∀ c ∈ l, P c = false) → l.filter P = [] := by
  intro l
  induction l with
  | nil => intro _; rfl
  | cons c l ih =>
    intro h
    rw [List.filter_cons, if_neg (by simp [h c (List.mem_cons_self _ _)]),
      ih (fun d hd => h d (List.mem_cons_of_mem _ hd))]

/-- What one rule-2 match rebuilds: the replacement is a single space followed
by exactly the non-blank characters of the matched text, and the newline the
match contained is gone. -/
lemma ws2_match_shape {q : List Char} {k' : Caps} (h : Mat WS_PATTERN_2 q [] k') :
    ws_repl_2 k' = ' ' :: q.filter (fun c => !(c == ' ' || c == '\n')) ∧
    '\n' ∈ q ∧ (∀ c ∈ ws_repl_2 k', c ≠ '\n') ∧
    (ws_repl_2 k').filter (fun c => !(c == ' ' || c == '\n')) =
      q.filter (fun c => !(c == ' ' || c == '\n')) := by
  obtain ⟨sp1, g1, g2, g3, sp2, g4, hm2, hsp1, hsp2, hg2ne, hchars, hrepl, hpre⟩ :=
    Mat_ws2_inv h
  have hPtrue : ∀ c, c ≠ ' ' → c ≠ '\n' → (!(c == ' ' || c == '\n')) = true := by
    intro c h1 h2
    have e1 : (c == ' ') = false := beq_false_of_ne h1
    have e2 : (c == '\n') = false := beq_false_of_ne h2
    rw [e1, e2]
    rfl
  have hgsf : List.filter (fun c => !(c == ' ' || c == '\n')) (g1 ++ g2 ++ g3 ++ g4) =
      g1 ++ g2 ++ g3 ++ g4 :=
    filter_all_true (fun c hc => hPtrue c (hchars c hc).1 (hchars c hc).2)
  have hg1f : List.filter (fun c => !(c == ' ' || c == '\n')) g1 = g1 :=
    filter_all_true (fun c hc => hPtrue c (hchars c (by simp [hc])).1
      (hchars c (by simp [hc])).2)
  have hg2f : List.filter (fun c => !(c == ' ' || c == '\n')) g2 = g2 :=
    filter_all_true (fun c hc => hPtrue c (hchars c (by simp [hc])).1
      (hchars c (by simp [hc])).2)
  have hg3f : List.filter (fun c => !(c == ' ' || c == '\n')) g3 = g3 :=
    filter_all_true (fun c hc => hPtrue c (hchars c (by simp [hc])).1
      (hchars c (by simp [hc])).2)
  have hg4f : List.filter (fun c => !(c == ' ' || c == '\n')) g4 = g4 :=
    filter_all_true (fun c hc => hPtrue c (hchars c (by simp [hc])).1
      (hchars c (by simp [hc])).2)
  have hsp1f : List.filter (fun c => !(c == ' ' || c == '\n')) sp1 = [] := by
    rcases hsp1 with rfl | rfl <;> rfl
  have hsp2f : List.filter (fun c => !(c == ' ' || c == '\n')) sp2 = [] := by
    rcases hsp2 with rfl | rfl <;> rfl
  have hqfil : List.filter (fun c => !(c == ' ' || c == '\n')) q =
      g1 ++ g2 ++ g3 ++ g4 := by
    rw [hm2]
    simp only [List.filter_append, hsp1f, hsp2f, hg1f, hg2f, hg3f, hg4f,
      List.filter_cons, show (!(('\n' == ' ') || ('\n' == '\n'))) = false from rfl,
      Bool.false_eq_true, if_false, List.nil_append, List.append_nil]
  refine ⟨by rw [hrepl, hqfil], by rw [hm2]; simp, ?_, ?_⟩
  · intro c hc
    rw [hrepl] at hc
    rcases List.mem_cons.mp hc with rfl | hc'
    · exact by decide
    · exact (hchars c hc').2
  · rw [hrepl, hqfil, List.filter_cons]
    rw [if_neg (by simp)]
    exact hgsf

/-- C7: the whitespace normaliser applies the two substitution rules of the
source in order; on every input the result has no run of two or more spaces
left, every rule-1 match was a run of two or more spaces replaced by one
space, every rule-2 match contained the line wrap newline and is replaced by
a space followed by its non-blank characters (the header fragments rejoined
onto one line), and the non-blank characters of the whole text are preserved
in order. -/
theorem C7_whitespace_normalisation (text : List Char) :
    substitute_white_space text =
      pySub WS_PATTERN_2 ws_repl_2 (pySub WS_PATTERN_1 ws_repl_1 text) ∧
    noDbl (substitute_white_space text) ∧
    (substitute_white_space text).filter (fun c => !(c == ' ' || c == '\n')) =
      text.filter (fun c => !(c == ' ' || c == '\n')) ∧
    (∀ s b m r k, searchGo WS_PATTERN_1 s = some (b, m, r, k) →
      (∃ t, m = ' ' :: ' ' :: t ∧ ∀ c ∈ m, c = ' ') ∧ ws_repl_1 k = [' ']) ∧
    (∀ s b m r k, searchGo WS_PATTERN_2 s = some (b, m, r, k) →
      '\n' ∈ m ∧
      ws_repl_2 k = ' ' :: m.filter (fun c => !(c == ' ' || c == '\n')) ∧
      ∀ c ∈ ws_repl_2 k, c ≠ '\n') := by
  have hm1 : ∀ q k', Mat WS_PATTERN_1 q [] k' →
      (ws_repl_1 k').filter (fun c => !(c == ' ' || c == '\n')) =
        q.filter (fun c => !(c == ' ' || c == '\n')) := by
    intro q k' hq
    obtain ⟨t, hq2, hall, _⟩ := Mat_ws1_inv hq
    have hqf : q.filter (fun c => !(c == ' ' || c == '\n')) = [] :=
      filter_all_false (fun c hc => by rw [hall c hc]; rfl)
    rw [hqf]
    rfl
  have hm2 : ∀ q k', Mat WS_PATTERN_2 q [] k' →
      (ws_repl_2 k').filter (fun c => !(c == ' ' || c == '\n')) =
        q.filter (fun c => !(c == ' ' || c == '\n')) :=
    fun q k' hq => (ws2_match_shape hq).2.2.2
  refine ⟨rfl, ?_, ?_, ?_, ?_⟩
  · exact reSub_ws2_noDbl ((pySub WS_PATTERN_1 ws_repl_1 text).length + 1)
      (pySub WS_PATTERN_1 ws_repl_1 text) (Nat.lt_succ_self _)
      ((reSub_ws1_spec (text.length + 1) text (Nat.lt_succ_self _)).1)
  · have h2 := reSub_filter_pres (fun c => !(c == ' ' || c == '\n')) hm2
      ((pySub WS_PATTERN_1 ws_repl_1 text).length + 1) (pySub WS_PATTERN_1 ws_repl_1 text)
    have h1 := reSub_filter_pres (fun c => !(c == ' ' || c == '\n')) hm1
      (text.length + 1) text
    exact h2.trans h1
  · intro s b m r k hsg
    obtain ⟨hd, hmm, hnone⟩ := searchGo_eq_some hsg
    obtain ⟨q, hq, hmat, hco⟩ := matchAt_sound hmm
    have hmq : m = q := (List.append_inj' hq rfl).1
    subst hmq
    obtain ⟨t, hq2, hall, _⟩ := Mat_ws1_inv hmat
    exact ⟨⟨t, hq2, hall⟩, rfl⟩
  · intro s b m r k hsg
    obtain ⟨hd, hmm, hnone⟩ := searchGo_eq_some hsg
    obtain ⟨q, hq, hmat, hco⟩ := matchAt_sound hmm
    have hmq : m = q := (List.append_inj' hq rfl).1
    subst hmq
    obtain ⟨hrepl, hnl, hnonl, hfil⟩ := ws2_match_shape hmat
    exact ⟨hnl, hrepl, hnonl⟩
